import Mathlib

/-!
Verification of the multi-method interpolation / method-selection engine of
the `hydrochem_trends_river_oslofjord_use_case` pipeline
(`src/interpolate.py`, `src/fluxes.py`).

The embedding models a daily series as a `List (Option ℚ)`: one entry per
calendar day, `none` for a missing value (pandas `NaN`).  Library calls from
pandas / scikit-learn that the source relies on are embedded by their
documented semantics:

* `Series.interpolate(method="linear", limit=n)` fills a missing entry from
  the straight line through the two surrounding valid entries, but only the
  first `n` missing entries of each consecutive missing run (the limit mask);
  entries before the first valid value stay missing, entries after the last
  valid value are clamped to the last valid value (`np.interp` boundary
  behaviour), again up to `n` per run.
* `Series.mean` / `Series.std` skip missing values; `std` uses `ddof = 1`
  and is `NaN` when fewer than two valid values exist; comparisons against
  `NaN` are `False`.
* `sklearn.metrics.r2_score` is `1 - ss_res / ss_tot`, with the conventions
  `1` when `ss_res = 0` and `0` when `ss_tot = 0 ≠ ss_res`.
* `resample(..).sum(min_count=k)` yields a missing aggregate when the number
  of valid values in the period is below `k`, else the sum of valid values.

Real-valued expressions involving a square root (the plausibility threshold
`mean + z·std + tolerance`) are encoded square-free over `ℚ`; the lemma
`exceedsBound_iff_real` proves the encoding equivalent to the real-valued
comparison.
-/

/-- A daily series: one entry per consecutive calendar day, `none` = missing. -/
abbrev Series : Type := List (Option ℚ)

/-- Valid (non-missing) values of a series, in order (pandas `dropna`). -/
def valids : Series → List ℚ
  | [] => []
  | none :: xs => valids xs
  | some v :: xs => v :: valids xs

/-- Number of valid values (pandas `notna().sum()`). -/
def countSome (xs : Series) : ℕ := (valids xs).length

/-- Mean over valid values (pandas `Series.mean`), `none` when no valid value. -/
def omean (xs : Series) : Option ℚ :=
  let v := valids xs
  if v.length = 0 then none else some (v.sum / v.length)

/-- Sample variance over valid values (square of pandas `Series.std`,
`ddof = 1`): `none` when fewer than two valid values (pandas yields `NaN`). -/
def sampleVar (xs : Series) : Option ℚ :=
  let v := valids xs
  if v.length < 2 then none
  else
    let m := v.sum / v.length
    some ((v.map (fun y => (y - m) ^ 2)).sum / ((v.length : ℚ) - 1))

/-- Minimum over valid values (pandas `Series.min`), `none` when empty. -/
def omin (xs : Series) : Option ℚ :=
  (valids xs).foldr (fun v acc => match acc with
    | none => some v
    | some w => some (min v w)) none

/-- Maximum over valid values (pandas `Series.max`), `none` when empty. -/
def omax (xs : Series) : Option ℚ :=
  (valids xs).foldr (fun v acc => match acc with
    | none => some v
    | some w => some (max v w)) none

/-- Index of the first valid entry (pandas `first_valid_index`). -/
def firstSomeIdx : Series → Option ℕ
  | [] => none
  | some _ :: _ => some 0
  | none :: xs => (firstSomeIdx xs).map (· + 1)

/-- Index of the last valid entry (pandas `last_valid_index`). -/
def lastSomeIdx : Series → Option ℕ
  | [] => none
  | x :: xs =>
    match lastSomeIdx xs with
    | some k => some (k + 1)
    | none =>
      match x with
      | some _ => some 0
      | none => none

/-- Label slice `xs.loc[a:b]` of a daily-indexed series (both ends inclusive). -/
def sliceSer (xs : Series) (a b : ℕ) : Series := (xs.drop a).take (b + 1 - a)

/-- Greatest valid index strictly below `k`, if any. -/
def prevSomeIdx (xs : Series) (k : ℕ) : Option ℕ := lastSomeIdx (xs.take k)

/-- Least valid index strictly above `k`, if any. -/
def nextSomeIdx (xs : Series) (k : ℕ) : Option ℕ :=
  (firstSomeIdx (xs.drop (k + 1))).map (· + (k + 1))

/-- Mask of missing entries (pandas `isna()`). -/
def missingMask (xs : Series) : List Bool := xs.map Option.isNone

/-- Helper for the longest run of `true` in a Boolean mask. -/
def longestRunAux : List Bool → ℕ → ℕ → ℕ
  | [], cur, best => max cur best
  | true :: xs, cur, best => longestRunAux xs (cur + 1) best
  | false :: xs, cur, best => longestRunAux xs 0 (max cur best)

/-- Length of the longest run of consecutive `true` entries: the value of
`mask.astype(int).groupby((~mask).cumsum()).sum().max()` used at
`interpolate.py` line 636 to measure the longest missing gap. -/
def longestRun (xs : List Bool) : ℕ := longestRunAux xs 0 0

/-- Entry of a series at position `k` (`none` when out of range). -/
def valAt (xs : Series) (k : ℕ) : Option ℚ := (xs.drop k).headD none

/-- Underlying rational of `valAt`, defaulting to `0` (only used at positions
known to be valid). -/
def ratAt (xs : Series) (k : ℕ) : ℚ := (valAt xs k).getD 0

/-- Value that `Series.interpolate(method="linear", limit=maxGap)` produces at
position `k` — the library call made by `interpolate_with_gap_limit`
(`interpolate.py` lines 149-152).  A valid entry is kept.  A missing entry
with a valid entry at `i` before and at `j` after it is filled from the
straight line through `(i, xs i)` and `(j, xs j)` provided at most `maxGap`
missing entries precede it in its run (`k - i ≤ maxGap`); a missing entry
after the last valid entry is clamped to that last value under the same run
limit (`np.interp` boundary behaviour); entries before the first valid entry
stay missing (`limit_direction="forward"`). -/
def interpAt (xs : Series) (maxGap k : ℕ) : Option ℚ :=
  match valAt xs k with
  | some v => some v
  | none =>
    match prevSomeIdx xs k, nextSomeIdx xs k with
    | some i, some j =>
        if k - i ≤ maxGap then
          some (ratAt xs i +
            (ratAt xs j - ratAt xs i) * ((k : ℚ) - (i : ℚ)) / ((j : ℚ) - (i : ℚ)))
        else none
    | some i, none => if k - i ≤ maxGap then some (ratAt xs i) else none
    | none, _ => none

/-- Embedding of `interpolate_with_gap_limit(series, max_gap, method="linear")`
(`interpolate.py` lines 149-152): `series.interpolate(method="linear",
limit=max_gap)`. -/
def interpolate_with_gap_limit (xs : Series) (maxGap : ℕ) : Series :=
  (List.range xs.length).map (interpAt xs maxGap)

/-- Embedding of `Series.interpolate(method="time")` on a daily index with no
limit, as called at `interpolate.py` line 276: linear interpolation in the
day index; a run limit of `xs.length` can never be exceeded. -/
def interpTime (xs : Series) : Series := interpolate_with_gap_limit xs xs.length

/-- Square-free encoding over `ℚ` of `pred > mean + z * std + tolerance` where
`std = √var` (the rejection test at `interpolate.py` lines 608-610). -/
def exceedsBound (pred mean var tol z : ℚ) : Bool :=
  decide (0 < pred - mean - tol) && decide (z ^ 2 * var < (pred - mean - tol) ^ 2)

/-- Pairs of (observed, predicted) values at positions where both series are
valid: the rows selected by `valid = y_obs.notna() & y_pred.notna()`
(`interpolate.py` line 591). -/
def validPairs : Series → Series → List (ℚ × ℚ)
  | [], _ => []
  | _, [] => []
  | o :: os, p :: ps =>
    match o, p with
    | some a, some b => (a, b) :: validPairs os ps
    | _, _ => validPairs os ps

/-- Total sum of squares of the observed components around their mean
(`ss_tot` inside `sklearn.metrics.r2_score`). -/
def ssTot (pairs : List (ℚ × ℚ)) : ℚ :=
  let ys := pairs.map Prod.fst
  let m := ys.sum / (ys.length : ℚ)
  (pairs.map (fun q => (q.1 - m) ^ 2)).sum

/-- Residual sum of squares (`ss_res` inside `sklearn.metrics.r2_score`). -/
def ssRes (pairs : List (ℚ × ℚ)) : ℚ :=
  (pairs.map (fun q => (q.1 - q.2) ^ 2)).sum

/-- Embedding of `sklearn.metrics.r2_score(y_obs[valid], y_pred[valid])`
(`interpolate.py` line 594): `1 - ss_res / ss_tot`, with sklearn's conventions
`1` when `ss_res = 0` and `0` when `ss_tot = 0 ≠ ss_res`. -/
def r2Score (pairs : List (ℚ × ℚ)) : ℚ :=
  if ssTot pairs = 0 then (if ssRes pairs = 0 then 1 else 0)
  else 1 - ssRes pairs / ssTot pairs

/-- The plausibility rejection of `interpolate.py` lines 605-611: with
`threshold = obs.mean() + z * obs.std() + tolerance` over the valid observed
values, test `(pred > threshold).any()`.  When fewer than two valid observed
values exist the pandas threshold is `NaN` and no element tests greater. -/
def gateRejects (yObs pred : Series) (z tol : ℚ) : Bool :=
  match omean yObs, sampleVar yObs with
  | some m, some v =>
      pred.any (fun o => match o with
        | some p => exceedsBound p m v tol z
        | none => false)
  | _, _ => false

/-- Identity of a candidate method, the column suffix of `interpolate.py`
(see `candidate_suffixes` at line 425, `fallback_method` at line 426 and the
donor list at line 640). -/
inductive MethodId : Type
  | linear_interp
  | annual_gam
  | monthly_regres
  | monthly_interp
deriving DecidableEq, Repr

/-- The per-station frame of candidate columns for one chemistry variable:
the columns `f"{var}_{suffix}"` of `df_station`, keyed by suffix.  All series
run over the full daily calendar. -/
abbrev Frame : Type := List (MethodId × Series)

/-- Column lookup, first match (`colname in df_station.columns`). -/
def findCol : Frame → MethodId → Option Series
  | [], _ => none
  | (n, s) :: rest, m => if n = m then some s else findCol rest m

/-- Selection configuration (`interpolate.py` lines 424-430). -/
structure SelCfg : Type where
  candSuffixes : List MethodId
  fallbackMethod : MethodId
  r2Threshold : ℚ
  zScoreLimit : ℚ
  tolerance : ℚ
  extremeRatioLimit : ℚ

/-- The default configuration values of `interpolate.py` lines 425-430. -/
def defaultSelCfg : SelCfg :=
  { candSuffixes := [.annual_gam, .monthly_regres, .monthly_interp]
    fallbackMethod := .linear_interp
    r2Threshold := 80 / 100
    zScoreLimit := 3
    tolerance := 50
    extremeRatioLimit := 2 }

/-- A scored candidate method: entry of `good_methods` / `fb_cands`
(`interpolate.py` lines 597 and 659): suffix, R² and the prediction series
restricted to the observed span (`df_obs_range[colname]`). -/
structure Scored : Type where
  suffix : MethodId
  r2 : ℚ
  pred : Series
deriving DecidableEq, Repr

/-- Score one candidate column over the observed span `[a, b]`
(`interpolate.py` lines 586-595): skip a missing column, skip when fewer than
10 valid (observed, predicted) pairs exist, otherwise compute R². -/
def scoreCandidate (frame : Frame) (yObs : Series) (a b : ℕ) (sfx : MethodId) :
    Option Scored :=
  match findCol frame sfx with
  | none => none
  | some col =>
    let yPred := sliceSer col a b
    if (validPairs yObs yPred).length < 10 then none
    else some ⟨sfx, r2Score (validPairs yObs yPred), yPred⟩

/-- The `good_methods` loop of `interpolate.py` lines 586-597: scored
candidates whose R² reaches the threshold, in `candidate_suffixes` order. -/
def collectGood (frame : Frame) (yObs : Series) (a b : ℕ) (thr : ℚ) :
    List MethodId → List Scored
  | [] => []
  | sfx :: rest =>
    match scoreCandidate frame yObs a b sfx with
    | none => collectGood frame yObs a b thr rest
    | some sc =>
      if thr ≤ sc.r2 then sc :: collectGood frame yObs a b thr rest
      else collectGood frame yObs a b thr rest

/-- Stable descending insertion: place `m` before the first element whose R²
does not exceed `m`'s. -/
def insertDesc (m : Scored) : List Scored → List Scored
  | [] => [m]
  | y :: ys => if m.r2 < y.r2 then y :: insertDesc m ys else m :: y :: ys

/-- Stable sort by R² descending: `good_methods.sort(key=r2, reverse=True)`
(`interpolate.py` line 599). -/
def sortDesc : List Scored → List Scored
  | [] => []
  | x :: xs => insertDesc x (sortDesc xs)

/-- The outlier-check loop of `interpolate.py` lines 604-616: walk the sorted
candidates and select the first whose predictions are not rejected by the
plausibility gate. -/
def firstPassing (yObs : Series) (z tol : ℚ) : List Scored → Option Scored
  | [] => none
  | m :: rest =>
    if gateRejects yObs m.pred z tol then firstPassing yObs z tol rest
    else some m

/-- Primary selection including the fallback of `interpolate.py` lines
601-627: the gate-passing good method with highest R², else the fallback
column (restricted to the observed span) when it exists, else nothing. -/
def selectPrimary (frame : Frame) (yObs : Series) (a b : ℕ) (cfg : SelCfg) :
    Option (MethodId × Series) :=
  match firstPassing yObs cfg.zScoreLimit cfg.tolerance
      (sortDesc (collectGood frame yObs a b cfg.r2Threshold cfg.candSuffixes)) with
  | some m => some (m.suffix, m.pred)
  | none =>
    match findCol frame cfg.fallbackMethod with
    | some col => some (cfg.fallbackMethod, sliceSer col a b)
    | none => none

/-- The extreme-prediction test of `interpolate.py` lines 652-654:
`pred_max > obs_max * ratio or pred_min < obs_min / ratio` (pandas min/max
skip missing values; with no valid value the comparison is against `NaN` and
is `False`). -/
def tooExtreme (yObs yPred : Series) (ratio : ℚ) : Bool :=
  match omin yObs, omax yObs, omin yPred, omax yPred with
  | some omn, some omx, some pmn, some pmx =>
      decide (omx * ratio < pmx) || decide (pmn < omn / ratio)
  | _, _, _, _ => false

/-- The hard-coded donor suffixes of `interpolate.py` line 640. -/
def gapDonorSuffixes : List MethodId := [.annual_gam, .monthly_regres]

/-- The donor-collection loop of `interpolate.py` lines 640-659: score each
donor like a candidate and — only under a long gap — drop donors with too
extreme predictions. -/
def collectDonors (frame : Frame) (yObs : Series) (a b : ℕ) (longGap : Bool)
    (ratio : ℚ) : List MethodId → List Scored
  | [] => []
  | sfx :: rest =>
    match scoreCandidate frame yObs a b sfx with
    | none => collectDonors frame yObs a b longGap ratio rest
    | some sc =>
      if longGap && tooExtreme yObs sc.pred ratio then
        collectDonors frame yObs a b longGap ratio rest
      else sc :: collectDonors frame yObs a b longGap ratio rest

/-- Index-aligned donor patch, `filled_series.loc[avail] =
best_fb["series"].loc[avail]` with `avail = missing_mask & donor.notna()`
(`interpolate.py` lines 664-666): a valid entry of the selected series is
kept, a missing entry takes the donor's entry at the same position. -/
def fillFromDonor : Series → Series → Series
  | [], _ => []
  | s :: ss, [] => s :: ss
  | s :: ss, d :: ds =>
    (match s with
     | some v => some v
     | none => d) :: fillFromDonor ss ds

/-- Whether the donor can fill at least one still-missing position
(`avail.any()`, `interpolate.py` line 665). -/
def anyFillable (sel donor : Series) : Bool :=
  (List.zipWith (fun s d => Option.isNone s && Option.isSome d) sel donor).any id

/-- The gap-fill pass of `interpolate.py` lines 629-668 on the selected
series (already restricted to the observed span): when still-missing
positions exist, measure the longest missing run, collect surviving donors,
sort them by R² descending, and patch the missing positions from the best
donor when it can fill at least one of them.  Returns the patched series and
the donor used (`fallback_used`). -/
def gapFillPass (frame : Frame) (yObs : Series) (a b : ℕ) (cfg : SelCfg)
    (sel : Series) : Series × Option MethodId :=
  let mask := missingMask sel
  if mask.any id then
    let longGap : Bool := decide (1460 ≤ longestRun mask)
    let donors := sortDesc
      (collectDonors frame yObs a b longGap cfg.extremeRatioLimit gapDonorSuffixes)
    match donors with
    | [] => (sel, none)
    | best :: _ =>
      if anyFillable sel best.pred then (fillFromDonor sel best.pred, some best.suffix)
      else (sel, none)
  else (sel, none)

/-- Write-back of `interpolate.py` lines 674-677: reindex the patched
obs-span series over the full calendar of `n` days; positions outside
`[a, b]` become missing. -/
def writeBack (filled : Series) (a b n : ℕ) : Series :=
  (List.range n).map (fun k => if a ≤ k ∧ k ≤ b then valAt filled (k - a) else none)

/-- The per-variable outcome recorded by the selection loop: `selected_col`,
`fallback_used` and the `{var}_final` column (`methods_chosen` and the
write-back of `interpolate.py` lines 670-677). -/
structure Decision : Type where
  primary : MethodId
  donor : Option MethodId
  finalFull : Series
deriving DecidableEq, Repr

/-- The complete per-variable selection of `interpolate.py` lines 565-677:
locate the observed span, evaluate and rank candidates, apply the
plausibility gate, fall back to the configured method, patch remaining gaps
from the best donor, and write the result back over the full calendar.
`none` when the variable has no observation or no method is available. -/
def selectVariable (frame : Frame) (obs : Series) (cfg : SelCfg) :
    Option Decision :=
  match firstSomeIdx obs, lastSomeIdx obs with
  | some a, some b =>
    let yObs := sliceSer obs a b
    match selectPrimary frame yObs a b cfg with
    | none => none
    | some (name, sel) =>
      let fd := gapFillPass frame yObs a b cfg sel
      some ⟨name, fd.2, writeBack fd.1 a b obs.length⟩
  | _, _ => none

/-- Daily mass flux for one day (`compute_fluxes`, `fluxes.py` lines 152-175):
`conc * factor * (q * 86400) / 1000`, missing when concentration or discharge
is missing. -/
def dailyFluxVal (factor : ℚ) (conc q : Option ℚ) : Option ℚ :=
  match conc, q with
  | some c, some qq => some (c * factor * (qq * 86400) / 1000)
  | _, _ => none

/-- Daily flux series of one variable (`compute_fluxes`, `fluxes.py`):
elementwise over the aligned concentration and discharge columns. -/
def computeFluxSeries (factor : ℚ) (conc q : Series) : Series :=
  List.zipWith (dailyFluxVal factor) conc q

/-- Embedding of `resample(..).sum(min_count=k)` applied to one period
(`fluxes.py` lines 598 and 602): missing when fewer than `minCount` valid
daily values exist in the period, else the sum of the valid values. -/
def sum_min_count (xs : Series) (minCount : ℕ) : Option ℚ :=
  if countSome xs < minCount then none else some (valids xs).sum

/-- Monthly flux aggregation, `daily_df.resample("M").sum(min_count=25)`
(`fluxes.py` line 598), one entry per calendar month of the index. -/
def monthlyFluxAgg (months : List Series) : List (Option ℚ) :=
  months.map (fun g => sum_min_count g 25)

/-- Annual flux aggregation, `daily_df.resample("Y").sum(min_count=350)`
(`fluxes.py` line 602), one entry per calendar year of the index. -/
def annualFluxAgg (years : List Series) : List (Option ℚ) :=
  years.map (fun g => sum_min_count g 350)

/-- Contiguous segment of the daily index (offset, length): the days of one
calendar month or year of the resampler. -/
def segmentSer (xs : Series) (se : ℕ × ℕ) : Series := (xs.drop se.1).take se.2

/-- Input of the `flux` pipeline tail (`fluxes.py` lines 586-631) for one
variable: unit factor, aligned concentration and discharge columns, and the
month / year segmentation of the daily index. -/
structure FluxInput : Type where
  factor : ℚ
  conc : Series
  q : Series
  monthSegs : List (ℕ × ℕ)
  yearSegs : List (ℕ × ℕ)

/-- The three result tables of the `flux` pipeline. -/
structure FluxOutputs : Type where
  daily : Series
  monthly : List (Option ℚ)
  annual : List (Option ℚ)
deriving DecidableEq, Repr

/-- Daily, monthly and annual flux tables as computed by `fluxes.py` lines
587-603 before any output is written. -/
def fluxOutputsOf (inp : FluxInput) : FluxOutputs :=
  let daily := computeFluxSeries inp.factor inp.conc inp.q
  { daily := daily
    monthly := monthlyFluxAgg (inp.monthSegs.map (segmentSer daily))
    annual := annualFluxAgg (inp.yearSegs.map (segmentSer daily)) }

/-- Control flow of `flux` (`fluxes.py` lines 587-631): the daily, monthly
and annual tables are computed (lines 587-603) and the daily plot is drawn
(line 607), but the bare `assert False` at line 608 then raises
unconditionally, so the monthly/annual plots and the NetCDF exports (lines
610-631) are never reached and no outputs are returned. -/
def fluxRun (inp : FluxInput) : Except String FluxOutputs :=
  let _outs := fluxOutputsOf inp
  Except.error "AssertionError"

/-- One discharge observation row: a (day number, discharge) pair. -/
abbrev QRow : Type := ℤ × ℚ

/-- One chemistry observation row for a single variable: a (day number,
value) pair, the value possibly missing. -/
abbrev WcRow : Type := ℤ × Option ℚ

/-- One row of the merged daily frame produced by `merge_daily_wc_q`. -/
structure DayRow : Type where
  date : ℤ
  discharge : Option ℚ
  chem : Option ℚ
deriving DecidableEq, Repr

/-- The `q_df.drop_duplicates(subset=date_col)` of `interpolate.py` line 118:
keep the first row of every date. -/
def dropDupDates (seen : List ℤ) : List QRow → List QRow
  | [] => []
  | r :: rest =>
    if r.1 ∈ seen then dropDupDates seen rest
    else r :: dropDupDates (r.1 :: seen) rest

/-- Minimum of the date column (`q_df[date_col].min()`); `0` on an empty
frame, which the caller excludes. -/
def datesMin : List QRow → ℤ
  | [] => 0
  | r :: rest => rest.foldl (fun acc x => min acc x.1) r.1

/-- Maximum of the date column (`q_df[date_col].max()`). -/
def datesMax : List QRow → ℤ
  | [] => 0
  | r :: rest => rest.foldl (fun acc x => max acc x.1) r.1

/-- First discharge value recorded for a date, if any (the left merge of
`interpolate.py` line 122 against the deduplicated discharge frame). -/
def qLookup : List QRow → ℤ → Option ℚ
  | [], _ => none
  | r :: rest, d => if r.1 = d then some r.2 else qLookup rest d

/-- Chemistry values recorded on one date (rows kept by the left merge of
`interpolate.py` line 127, restricted to this date), missing entries
dropped. -/
def chemValsAt : List WcRow → ℤ → List ℚ
  | [], _ => []
  | r :: rest, d =>
    if r.1 = d then
      match r.2 with
      | some x => x :: chemValsAt rest d
      | none => chemValsAt rest d
    else chemValsAt rest d

/-- Arithmetic mean of a list, missing when empty (the `groupby(date).mean()`
of `interpolate.py` line 136 applied to one date's group). -/
def meanOfList (vs : List ℚ) : Option ℚ :=
  if vs.length = 0 then none else some (vs.sum / vs.length)

/-- Consecutive day numbers `dmin, dmin + 1, ...` of length `n`
(`pd.date_range(q.min(), q.max(), freq="D")`, `interpolate.py` line 119). -/
def calendarDates (dmin : ℤ) : ℕ → List ℤ
  | 0 => []
  | n + 1 => dmin :: calendarDates (dmin + 1) n

/-- Embedding of `merge_daily_wc_q` (`interpolate.py` lines 96-145) for one
station and one chemistry variable: fail on an empty discharge frame (line
116), deduplicate discharge dates keeping the first row (line 118), build
the daily calendar from the first to the last discharge date inclusive
(lines 119-120), and produce one row per calendar day carrying the discharge
value of that day and the mean of the chemistry values observed on that day
(left merges of lines 122-127 followed by the `groupby(date).mean()` of line
136; chemistry rows outside the calendar are dropped by the left join). -/
def merge_daily_wc_q (q : List QRow) (wc : List WcRow) : Option (List DayRow) :=
  match q with
  | [] => none
  | _ =>
    let qd := dropDupDates [] q
    let dmin := datesMin qd
    let dmax := datesMax qd
    some ((calendarDates dmin (dmax + 1 - dmin).toNat).map
      (fun d => ⟨d, qLookup qd d, meanOfList (chemValsAt wc d)⟩))

/-- Days per calendar month, months numbered `0..11` (`pandas` calendar). -/
def daysInMonth (leap : Bool) : ℕ → ℕ
  | 0 => 31
  | 1 => if leap then 29 else 28
  | 2 => 31
  | 3 => 30
  | 4 => 31
  | 5 => 30
  | 6 => 31
  | 7 => 31
  | 8 => 30
  | 9 => 31
  | 10 => 30
  | 11 => 31
  | _ => 0

/-- Day-of-year (1-based) of the first day of month `m` (0-based). -/
def firstDoy (leap : Bool) : ℕ → ℕ
  | 0 => 1
  | m + 1 => firstDoy leap m + daysInMonth leap m

/-- Number of days in the year (365 or 366). -/
def yearLen (leap : Bool) : ℕ := firstDoy leap 12 - 1

/-- Day-of-year at which `monthly_to_daily_for_year` places the median of
month `m`: `interpolate.py` line 261 maps month `m` to
`MonthBegin(1) - 17 days`, i.e. 17 days before the first day of month
`m + 1` — the 15th only for 31-day months (the 12th/13th of February, the
14th of 30-day months). -/
def anchorDoy (leap : Bool) (m : ℕ) : ℕ := firstDoy leap (m + 1) - 17

/-- Month whose anchor falls on day-of-year `d`, if any (the reindexed frame
of `interpolate.py` line 264 holds a value exactly on anchor days). -/
def monthAtAnchor (leap : Bool) (d : ℕ) : Option ℕ :=
  (List.range 12).find? (fun m => anchorDoy leap m = d)

/-- The year-boundary seed of `interpolate.py` lines 268-272:
`(jan15 - dec15) / 2 + dec15` over the values found at the January and
December anchor days of the same year, missing when either is missing. -/
def endVal (profile : ℕ → Option ℚ) : Option ℚ :=
  match profile 0, profile 11 with
  | some j, some d => some ((j - d) / 2 + d)
  | _, _ => none

/-- Entry of the seeded pre-interpolation series at 0-based day `k`: the
year-boundary seed on January 1 and December 31 (lines 271-272), else the
month median on its anchor day, else missing. -/
def seededVal (leap : Bool) (profile : ℕ → Option ℚ) (k : ℕ) : Option ℚ :=
  if k = 0 ∨ k = yearLen leap - 1 then endVal profile
  else
    match monthAtAnchor leap (k + 1) with
    | some m => profile m
    | none => none

/-- The clamp of `interpolate.py` line 277: negative values to `0`, missing
stays missing. -/
def clampNeg (xs : Series) : Series :=
  xs.map (fun o =>
    match o with
    | some v => some (if v < 0 then 0 else v)
    | none => none)

/-- Embedding of `monthly_to_daily_for_year` (`interpolate.py` lines
258-278) for one year, parameterized by the 12-point monthly-median profile
(`profile m = none` for a month absent from that year): place each month's
median on its anchor day, seed the year boundaries, interpolate linearly in
time with no gap limit, and clamp negatives to zero. -/
def monthly_to_daily_for_year (leap : Bool) (profile : ℕ → Option ℚ) : Series :=
  clampNeg (interpTime ((List.range (yearLen leap)).map (seededVal leap profile)))

/-- Anchor day that the specification claim asserts: the 15th of month `m`. -/
def anchorDoySpecClaim (leap : Bool) (m : ℕ) : ℕ := firstDoy leap m + 14

/-- Month whose claimed anchor (the 15th) falls on day-of-year `d`. -/
def monthAtAnchorSpecClaim (leap : Bool) (d : ℕ) : Option ℕ :=
  (List.range 12).find? (fun m => anchorDoySpecClaim leap m = d)

/-- Seeded series entry under the claim's anchor placement. -/
def seededValSpecClaim (leap : Bool) (profile : ℕ → Option ℚ) (k : ℕ) : Option ℚ :=
  if k = 0 ∨ k = yearLen leap - 1 then endVal profile
  else
    match monthAtAnchorSpecClaim leap (k + 1) with
    | some m => profile m
    | none => none

/-- Rendering of claim C10's own words, for comparison with the source
embedding `monthly_to_daily_for_year`: each month's median placed at the
15th of its month, endpoints seeded from the December-15 / January-15
values, linear interpolation in between, negatives clamped to zero. -/
def monthlyToDailySpecClaim (leap : Bool) (profile : ℕ → Option ℚ) : Series :=
  clampNeg (interpTime ((List.range (yearLen leap)).map (seededValSpecClaim leap profile)))

/-- C1 counterexample data: sixteen observed values, fifteen `0`s and one
`400`; mean 25, sample std exactly 100, so the plausibility threshold is
`25 + 3 * 100 + 50 = 375 < 400`. -/
def exObs1 : Series :=
  [some 400, some 0, some 0, some 0, some 0, some 0, some 0, some 0,
   some 0, some 0, some 0, some 0, some 0, some 0, some 0, some 0]

/-- C1 counterexample frame: only the fallback `linear_interp` column exists
(equal to the observations: linear interpolation of a gap-free series). -/
def exF1 : Frame := [(MethodId.linear_interp, exObs1)]

/-- C1 witness data: ten alternating observed values `0, 2`. -/
def exYObs1w : Series :=
  [some 0, some 2, some 0, some 2, some 0, some 2, some 0, some 2, some 0, some 2]

/-- C1 witness frame: one perfect candidate equal to the observations. -/
def exF1w : Frame := [(MethodId.annual_gam, exYObs1w)]

/-- C2 scenario observations: ten valid values (mean 1, `ss_tot = 10`) and
one missing day. -/
def exYObs2 : Series :=
  [some 0, some 2, some 0, some 2, some 0, some 2, none, some 0, some 2,
   some 0, some 2]

/-- C2 scenario candidate A: R² = 0.9, with an implausible `1000` predicted
on the missing day. -/
def exPredA2 : Series :=
  [some 1, some 2, some 0, some 2, some 0, some 2, some 1000, some 0, some 2,
   some 0, some 2]

/-- C2 scenario candidate B: R² = 0.85, all predictions small. -/
def exPredB2 : Series :=
  [some 1, some (5/2), some (1/2), some 2, some 0, some 2, some 1, some 0,
   some 2, some 0, some 2]

/-- C2 scenario frame. -/
def exFrame2 : Frame :=
  [(MethodId.annual_gam, exPredA2), (MethodId.monthly_regres, exPredB2)]

/-- C2 scenario expected selection: the R² = 0.85 candidate. -/
def exB2 : Scored := ⟨MethodId.monthly_regres, 17/20, exPredB2⟩

/-- C3 counterexample series: a run of three missing days between two
observations. -/
def exGap3 : Series := [some 10, none, none, none, some 20]

/-- C5 scenario: ten valid observed values before the long gap. -/
def exHead5 : Series :=
  [some 1, some 3, some 1, some 3, some 1, some 3, some 1, some 3, some 1, some 3]

/-- C5 scenario observations: twelve valid values in `{1, 3}` around a
1500-day contiguous gap. -/
def exYObs5 : Series := exHead5 ++ List.replicate 1500 none ++ [some 1, some 3]

/-- C5 scenario donor column: matches the observations except a `9` on the
first day — `9 > 3 * 2 = obs_max * extreme_ratio_limit`. -/
def exDonorCol5 : Series :=
  [some 9, some 3, some 1, some 3, some 1, some 3, some 1, some 3, some 1, some 3]
    ++ List.replicate 1500 none ++ [some 1, some 3]

/-- C5 scenario frame: the donor is the only candidate column. -/
def exFrame5 : Frame := [(MethodId.annual_gam, exDonorCol5)]

/-- C5 scenario scored donor: `R² = 1 - 64/12 = -13/3`. -/
def exDonor5 : Scored := ⟨MethodId.annual_gam, -13/3, exDonorCol5⟩

/-- C7 counterexample observations: twelve valid days flanked by missing
days at both calendar ends (observed span = positions 1..12). -/
def exObs7 : Series :=
  [none, some 0, some 2, some 0, some 2, some 0, some 2, some 0, some 2,
   some 0, some 2, some 0, some 2, none]

/-- C7 counterexample candidate column: perfect over the observed span and
additionally predicting `7` on day 0, outside the observed span. -/
def exCol7 : Series :=
  [some 7, some 0, some 2, some 0, some 2, some 0, some 2, some 0, some 2,
   some 0, some 2, some 0, some 2, none]

/-- C7 counterexample frame. -/
def exFrame7 : Frame := [(MethodId.annual_gam, exCol7)]

/-- C7 expected decision: the accepted series written back over the full
calendar equals the observations — the prediction outside the span is gone. -/
def exD7 : Decision := ⟨MethodId.annual_gam, none, exObs7⟩

/-- C7 observed-span slice: the twelve valid values. -/
def exYObs7 : Series :=
  [some 0, some 2, some 0, some 2, some 0, some 2, some 0, some 2, some 0,
   some 2, some 0, some 2]

/-- C7 accepted scored candidate: perfect fit over the span. -/
def exM7 : Scored := ⟨MethodId.annual_gam, 1, exYObs7⟩

/-- C8 witness discharge rows: a duplicated date 5 and a date 7. -/
def exQ8 : List QRow := [(5, 2), (7, 3), (5, 9)]

/-- C8 witness chemistry rows: two observations on day 6 (mean 5) and one
outside the discharge range. -/
def exWc8 : List WcRow := [(6, some 4), (6, some 6), (3, some 100)]

/-- C8 expected merged rows. -/
def exRows8 : List DayRow :=
  [⟨5, some 2, none⟩, ⟨6, none, some 5⟩, ⟨7, some 3, none⟩]

/-- C9 witness month: 10 valid daily fluxes of a 30-day month. -/
def exMonth9 : Series := List.replicate 10 (some 1) ++ List.replicate 20 none

/-- C9 witness year: 100 valid daily fluxes of a 365-day year. -/
def exYear9 : Series := List.replicate 100 (some 2) ++ List.replicate 265 none

/-- C10 profile: January and February medians `0`, the other months `31`. -/
def exProfile10 : ℕ → Option ℚ := fun m =>
  if m = 0 ∨ m = 1 then some 0 else if m < 12 then some 31 else none
/-- Entry lookups agree with `List.getElem?`. -/
theorem valAt_eq_getElem (xs : Series) (k : ℕ) : valAt xs k = xs[k]?.getD none := by
  induction xs generalizing k with
  | nil => simp [valAt]
  | cons x xs ih =>
    cases k with
    | zero => simp [valAt]
    | succ k =>
      rw [List.getElem?_cons_succ]
      exact ih k

theorem valAt_nil (k : ℕ) : valAt ([] : Series) k = none := by simp [valAt]

theorem valAt_cons_succ (x : Option ℚ) (xs : Series) (k : ℕ) :
    valAt (x :: xs) (k + 1) = valAt xs k := rfl

theorem valAt_of_length_le (xs : Series) (k : ℕ) (h : xs.length ≤ k) :
    valAt xs k = none := by
  rw [valAt_eq_getElem, List.getElem?_eq_none h, Option.getD_none]

theorem lt_length_of_valAt_ne_none (xs : Series) (k : ℕ) (h : valAt xs k ≠ none) :
    k < xs.length := by
  by_contra hk
  exact h (valAt_of_length_le xs k (Nat.le_of_not_lt hk))

theorem valAt_take (xs : Series) (k t : ℕ) (h : t < k) :
    valAt (xs.take k) t = valAt xs t := by
  rw [valAt_eq_getElem, valAt_eq_getElem, List.getElem?_take, if_pos h]

theorem valAt_drop (xs : Series) (m t : ℕ) :
    valAt (xs.drop m) t = valAt xs (m + t) := by
  rw [valAt_eq_getElem, valAt_eq_getElem, List.getElem?_drop]

theorem valAt_map_range (f : ℕ → Option ℚ) (n k : ℕ) :
    valAt ((List.range n).map f) k = if k < n then f k else none := by
  rw [valAt_eq_getElem, List.getElem?_map]
  by_cases h : k < n
  · rw [List.getElem?_range h, if_pos h]
    rfl
  · rw [List.getElem?_eq_none (by simpa using Nat.le_of_not_lt h), if_neg h]
    rfl

/-- Soundness of `firstSomeIdx`: it points at a valid entry preceded only by
missing entries. -/
theorem firstSomeIdx_spec (xs : Series) (i : ℕ) (h : firstSomeIdx xs = some i) :
    i < xs.length ∧ valAt xs i ≠ none ∧ ∀ t, t < i → valAt xs t = none := by
  induction xs generalizing i with
  | nil => simp [firstSomeIdx] at h
  | cons x xs ih =>
    cases x with
    | some v =>
      rw [firstSomeIdx] at h
      obtain rfl : i = 0 := by simpa using h.symm
      refine ⟨by simp, by simp [valAt], ?_⟩
      intro t ht
      omega
    | none =>
      rw [firstSomeIdx, Option.map_eq_some'] at h
      obtain ⟨i0, hi0, rfl⟩ := h
      obtain ⟨h1, h2, h3⟩ := ih i0 hi0
      refine ⟨by simpa using h1, h2, ?_⟩
      intro t ht
      cases t with
      | zero => simp [valAt]
      | succ t => exact h3 t (by omega)

/-- Completeness of `firstSomeIdx`. -/
theorem firstSomeIdx_complete (xs : Series) (i : ℕ) (h1 : valAt xs i ≠ none)
    (h2 : ∀ t, t < i → valAt xs t = none) : firstSomeIdx xs = some i := by
  induction xs generalizing i with
  | nil => simp [valAt_nil] at h1
  | cons x xs ih =>
    cases x with
    | some v =>
      cases i with
      | zero => rfl
      | succ i => exact absurd (h2 0 (by omega)) (by simp [valAt])
    | none =>
      cases i with
      | zero => simp [valAt] at h1
      | succ i =>
        rw [firstSomeIdx, ih i h1 (fun t ht => h2 (t + 1) (by omega))]
        rfl

/-- A series with no first valid index is entirely missing. -/
theorem firstSomeIdx_none (xs : Series) (h : firstSomeIdx xs = none) :
    ∀ t, valAt xs t = none := by
  induction xs with
  | nil => intro t; exact valAt_nil t
  | cons x xs ih =>
    cases x with
    | some v => simp [firstSomeIdx] at h
    | none =>
      rw [firstSomeIdx, Option.map_eq_none'] at h
      intro t
      cases t with
      | zero => rfl
      | succ t => exact ih h t

/-- A series with no last valid index is entirely missing. -/
theorem lastSomeIdx_none (xs : Series) (h : lastSomeIdx xs = none) :
    ∀ t, valAt xs t = none := by
  induction xs with
  | nil => intro t; exact valAt_nil t
  | cons x xs ih =>
    cases hl : lastSomeIdx xs with
    | some k => simp [lastSomeIdx, hl] at h
    | none =>
      cases x with
      | some v => simp [lastSomeIdx, hl] at h
      | none =>
        intro t
        cases t with
        | zero => rfl
        | succ t => exact ih hl t

/-- Soundness of `lastSomeIdx`: it points at a valid entry followed only by
missing entries. -/
theorem lastSomeIdx_spec (xs : Series) (i : ℕ) (h : lastSomeIdx xs = some i) :
    i < xs.length ∧ valAt xs i ≠ none ∧ ∀ t, i < t → valAt xs t = none := by
  induction xs generalizing i with
  | nil => simp [lastSomeIdx] at h
  | cons x xs ih =>
    cases hl : lastSomeIdx xs with
    | some k =>
      simp only [lastSomeIdx, hl] at h
      obtain rfl : i = k + 1 := by simpa using h.symm
      obtain ⟨h1, h2, h3⟩ := ih k hl
      refine ⟨by simpa using h1, h2, ?_⟩
      intro t ht
      cases t with
      | zero => omega
      | succ t => exact h3 t (by omega)
    | none =>
      cases x with
      | some v =>
        simp only [lastSomeIdx, hl] at h
        obtain rfl : i = 0 := by simpa using h.symm
        refine ⟨by simp, by simp [valAt], ?_⟩
        intro t ht
        cases t with
        | zero => omega
        | succ t => exact lastSomeIdx_none xs hl t
      | none =>
        rw [show lastSomeIdx (none :: xs) = (lastSomeIdx xs).map (fun k => k + 1) from by
          cases hlx : lastSomeIdx xs <;> simp [lastSomeIdx, hlx], hl] at h
        cases h

/-- Completeness of `lastSomeIdx`. -/
theorem lastSomeIdx_complete (xs : Series) (i : ℕ) (h1 : valAt xs i ≠ none)
    (h2 : ∀ t, i < t → valAt xs t = none) : lastSomeIdx xs = some i := by
  induction xs generalizing i with
  | nil => simp [valAt_nil] at h1
  | cons x xs ih =>
    cases i with
    | zero =>
      have hnone : lastSomeIdx xs = none := by
        cases hl : lastSomeIdx xs with
        | none => rfl
        | some k =>
          obtain ⟨hk1, hk2, _⟩ := lastSomeIdx_spec xs k hl
          exact absurd (h2 (k + 1) (by omega)) hk2
      cases x with
      | some v => simp [lastSomeIdx, hnone]
      | none => simp [valAt] at h1
    | succ i =>
      have := ih i h1 (fun t ht => h2 (t + 1) (by omega))
      simp [lastSomeIdx, this]

/-- Soundness of `prevSomeIdx`: the greatest valid index strictly below `k`. -/
theorem prevSomeIdx_spec (xs : Series) (k i : ℕ) (h : prevSomeIdx xs k = some i) :
    i < k ∧ valAt xs i ≠ none ∧ ∀ t, i < t → t < k → valAt xs t = none := by
  obtain ⟨h1, h2, h3⟩ := lastSomeIdx_spec (xs.take k) i h
  have hik : i < k := by
    have := xs.length_take_le k
    omega
  refine ⟨hik, by rwa [valAt_take xs k i hik] at h2, ?_⟩
  intro t ht1 ht2
  have := h3 t ht1
  rwa [valAt_take xs k t ht2] at this

/-- Completeness of `prevSomeIdx`. -/
theorem prevSomeIdx_complete (xs : Series) (k i : ℕ) (hik : i < k)
    (h1 : valAt xs i ≠ none) (h2 : ∀ t, i < t → t < k → valAt xs t = none) :
    prevSomeIdx xs k = some i := by
  apply lastSomeIdx_complete
  · rwa [valAt_take xs k i hik]
  · intro t ht
    by_cases htk : t < k
    · rw [valAt_take xs k t htk]
      exact h2 t ht htk
    · exact valAt_of_length_le _ t (by
        have := xs.length_take_le k
        have : (xs.take k).length ≤ k := this
        omega)

/-- With no valid index before `k`, everything before `k` is missing. -/
theorem prevSomeIdx_none (xs : Series) (k : ℕ) (h : prevSomeIdx xs k = none) :
    ∀ t, t < k → valAt xs t = none := by
  intro t ht
  have := lastSomeIdx_none (xs.take k) h t
  rwa [valAt_take xs k t ht] at this

/-- Completeness of `nextSomeIdx`: the least valid index strictly above `k`. -/
theorem nextSomeIdx_complete (xs : Series) (k j : ℕ) (hkj : k < j)
    (h1 : valAt xs j ≠ none) (h2 : ∀ t, k < t → t < j → valAt xs t = none) :
    nextSomeIdx xs k = some j := by
  rw [nextSomeIdx]
  have hfi : firstSomeIdx (xs.drop (k + 1)) = some (j - (k + 1)) := by
    apply firstSomeIdx_complete
    · rw [valAt_drop]
      have : k + 1 + (j - (k + 1)) = j := by omega
      rwa [this]
    · intro t ht
      rw [valAt_drop]
      exact h2 (k + 1 + t) (by omega) (by omega)
  rw [hfi]
  have hj : j - (k + 1) + (k + 1) = j := by omega
  simp [hj]

/-- Soundness of `nextSomeIdx`. -/
theorem nextSomeIdx_spec (xs : Series) (k j : ℕ) (h : nextSomeIdx xs k = some j) :
    k < j ∧ valAt xs j ≠ none ∧ ∀ t, k < t → t < j → valAt xs t = none := by
  rw [nextSomeIdx, Option.map_eq_some'] at h
  obtain ⟨j0, hj0, rfl⟩ := h
  obtain ⟨hl1, hl2, hl3⟩ := firstSomeIdx_spec _ j0 hj0
  rw [valAt_drop] at hl2
  refine ⟨by omega, by rwa [Nat.add_comm] at hl2, ?_⟩
  intro t ht1 ht2
  have := hl3 (t - (k + 1)) (by omega)
  rw [valAt_drop] at this
  have heq : k + 1 + (t - (k + 1)) = t := by omega
  rwa [heq] at this

/-- Interpolation keeps valid entries unchanged. -/
theorem interpAt_of_some (xs : Series) (maxGap k : ℕ) (v : ℚ)
    (h : valAt xs k = some v) : interpAt xs maxGap k = some v := by
  rw [interpAt, h]

/-- Entries of the interpolated series are pointwise `interpAt`. -/
theorem valAt_interp (xs : Series) (maxGap k : ℕ) (hk : k < xs.length) :
    valAt (interpolate_with_gap_limit xs maxGap) k = interpAt xs maxGap k := by
  rw [interpolate_with_gap_limit, valAt_map_range, if_pos hk]

/-- Value filled strictly between two surrounding valid entries with nothing
valid in between: the straight line through both, when the run limit allows. -/
theorem interpAt_between (xs : Series) (maxGap i j k : ℕ) (vi vj : ℚ)
    (hik : i < k) (hkj : k < j) (hvi : valAt xs i = some vi)
    (hvj : valAt xs j = some vj)
    (hbet : ∀ t, i < t → t < j → valAt xs t = none) (hgap : k - i ≤ maxGap) :
    interpAt xs maxGap k =
      some (vi + (vj - vi) * ((k : ℚ) - (i : ℚ)) / ((j : ℚ) - (i : ℚ))) := by
  have hk : valAt xs k = none := hbet k hik hkj
  have hprev : prevSomeIdx xs k = some i :=
    prevSomeIdx_complete xs k i hik (by rw [hvi]; exact Option.some_ne_none vi)
      (fun t ht1 ht2 => hbet t ht1 (by omega))
  have hnext : nextSomeIdx xs k = some j :=
    nextSomeIdx_complete xs k j hkj (by rw [hvj]; exact Option.some_ne_none vj)
      (fun t ht1 ht2 => hbet t (by omega) ht2)
  simp only [interpAt, hk, hprev, hnext, if_pos hgap, ratAt, hvi, hvj,
    Option.getD_some]

/-- A missing entry is filled exactly when a valid entry precedes it at
run-distance at most `maxGap`. -/
theorem interpAt_fill_iff (xs : Series) (maxGap k : ℕ)
    (hmiss : valAt xs k = none) :
    interpAt xs maxGap k ≠ none ↔
      ∃ i, i < k ∧ valAt xs i ≠ none ∧
        (∀ t, i < t → t < k → valAt xs t = none) ∧ k - i ≤ maxGap := by
  cases hprev : prevSomeIdx xs k with
  | none =>
    simp only [interpAt, hmiss, hprev]
    constructor
    · intro h
      exact absurd rfl h
    · intro h
      obtain ⟨i, hik, hvi, _, _⟩ := h
      exact absurd (prevSomeIdx_none xs k hprev i hik) hvi
  | some i =>
    obtain ⟨hik, hvi, hbet⟩ := prevSomeIdx_spec xs k i hprev
    have hiff : ∀ r : Option ℚ,
        ((if k - i ≤ maxGap then r else none) ≠ none ↔ k - i ≤ maxGap ∧ r ≠ none) := by
      intro r
      by_cases hg : k - i ≤ maxGap
      · simp [hg]
      · simp [hg]
    have hright : (∃ i2, i2 < k ∧ valAt xs i2 ≠ none ∧
        (∀ t, i2 < t → t < k → valAt xs t = none) ∧ k - i2 ≤ maxGap) ↔
        k - i ≤ maxGap := by
      constructor
      · intro h
        obtain ⟨i2, hik2, hvi2, hbet2, hg2⟩ := h
        have : prevSomeIdx xs k = some i2 :=
          prevSomeIdx_complete xs k i2 hik2 hvi2 hbet2
        rw [hprev] at this
        obtain rfl : i2 = i := by simpa using this.symm
        exact hg2
      · intro hg
        exact ⟨i, hik, hvi, hbet, hg⟩
    cases hnext : nextSomeIdx xs k with
    | none =>
      simp only [interpAt, hmiss, hprev, hnext]
      rw [hiff, hright]
      simp
    | some j =>
      simp only [interpAt, hmiss, hprev, hnext]
      rw [hiff, hright]
      simp

/-- C3, counterexample: with `max_gap = 2`, the series `[10, —, —, —, 20]`
has a missing run of length `3 > max_gap`, yet `interpolate_with_gap_limit`
fills the first two days of the run (pandas `limit` caps how many entries of
a run are filled, it does not skip longer runs), so the run does not remain
entirely missing as the claim states. -/
theorem spec_c3_counterexample :
    longestRun (missingMask exGap3) = 3 ∧ 2 < 3 ∧
    interpolate_with_gap_limit exGap3 2 =
      [some 10, some (25/2), some 15, none, some 20] := by
  refine ⟨?_, by norm_num, ?_⟩
  · norm_num [longestRun, missingMask, exGap3, longestRunAux]
  · norm_num [interpolate_with_gap_limit, exGap3, List.range_succ, interpAt,
      valAt, prevSomeIdx, nextSomeIdx, lastSomeIdx, firstSomeIdx, ratAt]

/-- C3, amended: `interpolate_with_gap_limit` fills a missing day if and only
if some observed day precedes it with no observed day in between and at
distance at most `max_gap`; consequently a run of missing days between
observations is filled completely when its length is at most `max_gap` and
only in its first `max_gap` days otherwise, and days before the first
observation stay missing. -/
theorem spec_c3_amended (xs : Series) (maxGap k : ℕ) (hk : k < xs.length)
    (hmiss : valAt xs k = none) :
    valAt (interpolate_with_gap_limit xs maxGap) k ≠ none ↔
      ∃ i, i < k ∧ valAt xs i ≠ none ∧
        (∀ t, i < t → t < k → valAt xs t = none) ∧ k - i ≤ maxGap := by
  rw [valAt_interp xs maxGap k hk]
  exact interpAt_fill_iff xs maxGap k hmiss

/-- C3, witness: the amended characterization applied to the counterexample
series at day 3 (no filling: the previous observed day is at distance 3 > 2). -/
theorem spec_c3_witness :
    (3 < exGap3.length ∧ valAt exGap3 3 = none) ∧
      (valAt (interpolate_with_gap_limit exGap3 2) 3 ≠ none ↔
        ∃ i, i < 3 ∧ valAt exGap3 i ≠ none ∧
          (∀ t, i < t → t < 3 → valAt exGap3 t = none) ∧ 3 - i ≤ 2) :=
  ⟨⟨by norm_num [exGap3], by norm_num [exGap3, valAt]⟩,
    spec_c3_amended exGap3 2 3 (by norm_num [exGap3]) (by norm_num [exGap3, valAt])⟩

/-- The donor patch never touches a valid entry of the selected series. -/
theorem fillFromDonor_valAt_some (sel donor : Series) (k : ℕ) (v : ℚ)
    (h : valAt sel k = some v) : valAt (fillFromDonor sel donor) k = some v := by
  induction sel generalizing donor k with
  | nil => rw [valAt_nil] at h; cases h
  | cons s ss ih =>
    cases donor with
    | nil =>
      have he : fillFromDonor (s :: ss) [] = s :: ss := rfl
      rw [he]
      exact h
    | cons d ds =>
      cases k with
      | zero =>
        have hs : s = some v := h
        subst hs
        rfl
      | succ k => exact ih ds k h

/-- Whatever branch the gap-fill pass takes, its output series is either the
selected series or a donor patch of it. -/
theorem gapFillPass_cases (frame : Frame) (yObs : Series) (a b : ℕ)
    (cfg : SelCfg) (sel : Series) :
    (gapFillPass frame yObs a b cfg sel).1 = sel ∨
      ∃ donor : Series,
        (gapFillPass frame yObs a b cfg sel).1 = fillFromDonor sel donor := by
  by_cases h1 : (missingMask sel).any id
  · cases hds : sortDesc (collectDonors frame yObs a b
        (decide (1460 ≤ longestRun (missingMask sel))) cfg.extremeRatioLimit
        gapDonorSuffixes) with
    | nil =>
      left
      simp only [gapFillPass, h1, if_true, hds]
    | cons best rest =>
      by_cases h2 : anyFillable sel best.pred
      · right
        refine ⟨best.pred, ?_⟩
        simp only [gapFillPass, h1, if_true, hds, h2]
      · left
        simp only [gapFillPass, h1, if_true, hds, h2, Bool.false_eq_true, if_false]
  · left
    simp only [gapFillPass, h1, Bool.false_eq_true, if_false]

/-- The gap-fill pass is the identity when no position is still missing. -/
theorem gapFillPass_noop (frame : Frame) (yObs : Series) (a b : ℕ)
    (cfg : SelCfg) (sel : Series) (h : (missingMask sel).any id = false) :
    gapFillPass frame yObs a b cfg sel = (sel, none) := by
  simp only [gapFillPass, h, Bool.false_eq_true, if_false]

/-- The gap-fill pass is the identity when no donor survives collection. -/
theorem gapFillPass_no_donor (frame : Frame) (yObs : Series) (a b : ℕ)
    (cfg : SelCfg) (sel : Series)
    (h : collectDonors frame yObs a b
      (decide (1460 ≤ longestRun (missingMask sel))) cfg.extremeRatioLimit
      gapDonorSuffixes = []) :
    gapFillPass frame yObs a b cfg sel = (sel, none) := by
  by_cases h1 : (missingMask sel).any id
  · simp only [gapFillPass, h1, if_true, h, sortDesc]
  · simp only [gapFillPass, h1, Bool.false_eq_true, if_false]

/-- C4: the gap-fill pass writes donor values only into still-missing
positions — every position of the selected series already holding a value is
unchanged in the output — and it is a no-op whenever the selected series has
no missing position (hence re-running it on a filled series changes
nothing). -/
theorem spec_c4 (frame : Frame) (yObs : Series) (a b : ℕ) (cfg : SelCfg)
    (sel : Series) :
    (∀ k v, valAt sel k = some v →
      valAt (gapFillPass frame yObs a b cfg sel).1 k = some v) ∧
    ((missingMask sel).any id = false →
      gapFillPass frame yObs a b cfg sel = (sel, none)) := by
  constructor
  · intro k v h
    rcases gapFillPass_cases frame yObs a b cfg sel with hc | ⟨donor, hc⟩
    · rw [hc]
      exact h
    · rw [hc]
      exact fillFromDonor_valAt_some sel donor k v h
  · exact gapFillPass_noop frame yObs a b cfg sel

/-- C4, witness: a valid entry survives the pass, and a fully valid series
passes through unchanged. -/
theorem spec_c4_witness :
    valAt (gapFillPass [] [] 0 1 defaultSelCfg [some 1, none]).1 0 = some 1 ∧
    gapFillPass [] [] 0 1 defaultSelCfg [some 1, some 2] =
      ([some 1, some 2], none) :=
  ⟨(spec_c4 [] [] 0 1 defaultSelCfg [some 1, none]).1 0 1 rfl,
   (spec_c4 [] [] 0 1 defaultSelCfg [some 1, some 2]).2 rfl⟩

/-- Valid values of a concatenation. -/
theorem valids_append (a b : Series) : valids (a ++ b) = valids a ++ valids b := by
  induction a with
  | nil => rfl
  | cons x xs ih =>
    cases x with
    | none => simpa [valids] using ih
    | some v => simpa [valids] using ih

/-- A fully missing block contributes no valid values. -/
theorem valids_replicate_none (n : ℕ) :
    valids (List.replicate n none) = [] := by
  induction n with
  | zero => rfl
  | succ n ih => simpa [List.replicate_succ, valids] using ih

/-- A fully valid block contributes all its values. -/
theorem valids_replicate_some (n : ℕ) (v : ℚ) :
    valids (List.replicate n (some v)) = List.replicate n v := by
  induction n with
  | zero => rfl
  | succ n ih => simpa [List.replicate_succ, valids] using ih

/-- C6: the flux pipeline never completes: for every input, the unconditional
`assert False` at `fluxes.py` line 608 raises after the daily plot, so the
run errors out and the monthly/annual plots and all NetCDF outputs are
unreachable, contradicting the claim that processing runs to completion. -/
theorem spec_c6 (inp : FluxInput) :
    fluxRun inp = Except.error "AssertionError" ∧
      ∀ outs : FluxOutputs, fluxRun inp ≠ Except.ok outs := by
  refine ⟨rfl, ?_⟩
  intro outs h
  simp [fluxRun] at h

/-- C9: a monthly aggregate is missing whenever fewer than 25 daily values
are valid, an annual aggregate is missing whenever fewer than 350 are valid,
and every non-missing aggregate comes from a period meeting its threshold
and equals the sum of that period's valid values (never a partial sum of a
sparse period). -/
theorem spec_c9 (months years : List Series) :
    (∀ g ∈ months, countSome g < 25 → sum_min_count g 25 = none) ∧
    (∀ g ∈ years, countSome g < 350 → sum_min_count g 350 = none) ∧
    (∀ o ∈ monthlyFluxAgg months, o ≠ none →
      ∃ g ∈ months, 25 ≤ countSome g ∧ o = some (valids g).sum) ∧
    (∀ o ∈ annualFluxAgg years, o ≠ none →
      ∃ g ∈ years, 350 ≤ countSome g ∧ o = some (valids g).sum) := by
  refine ⟨?_, ?_, ?_, ?_⟩
  · intro g _ hc
    rw [sum_min_count, if_pos hc]
  · intro g _ hc
    rw [sum_min_count, if_pos hc]
  · intro o ho hne
    rw [monthlyFluxAgg, List.mem_map] at ho
    obtain ⟨g, hg, rfl⟩ := ho
    by_cases hc : countSome g < 25
    · rw [sum_min_count, if_pos hc] at hne
      exact absurd rfl hne
    · exact ⟨g, hg, by omega, by rw [sum_min_count, if_neg hc]⟩
  · intro o ho hne
    rw [annualFluxAgg, List.mem_map] at ho
    obtain ⟨g, hg, rfl⟩ := ho
    by_cases hc : countSome g < 350
    · rw [sum_min_count, if_pos hc] at hne
      exact absurd rfl hne
    · exact ⟨g, hg, by omega, by rw [sum_min_count, if_neg hc]⟩

/-- C9, witness: a month with 10 valid daily values (partial data present)
aggregates to missing, and so does a year with 100 valid daily values. -/
theorem spec_c9_witness :
    (exMonth9 ∈ [exMonth9] ∧ 0 < countSome exMonth9 ∧ countSome exMonth9 < 25 ∧
      sum_min_count exMonth9 25 = none) ∧
    (exYear9 ∈ [exYear9] ∧ 0 < countSome exYear9 ∧ countSome exYear9 < 350 ∧
      sum_min_count exYear9 350 = none) := by
  have hm : countSome exMonth9 = 10 := by
    rw [countSome, exMonth9, valids_append, valids_replicate_some,
      valids_replicate_none]
    simp
  have hy : countSome exYear9 = 100 := by
    rw [countSome, exYear9, valids_append, valids_replicate_some,
      valids_replicate_none]
    simp
  refine ⟨⟨by simp, by omega, by omega, ?_⟩, ⟨by simp, by omega, by omega, ?_⟩⟩
  · exact (spec_c9 [exMonth9] [exYear9]).1 exMonth9 (by simp) (by omega)
  · exact (spec_c9 [exMonth9] [exYear9]).2.1 exYear9 (by simp) (by omega)

/-- Membership in an insertion. -/
theorem mem_insertDesc (m y : Scored) (l : List Scored) :
    y ∈ insertDesc m l ↔ y = m ∨ y ∈ l := by
  induction l with
  | nil => simp [insertDesc]
  | cons x xs ih =>
    by_cases h : m.r2 < x.r2
    · simp only [insertDesc, if_pos h, List.mem_cons, ih]
      tauto
    · simp only [insertDesc, if_neg h, List.mem_cons]

/-- Sorting permutes nothing in or out. -/
theorem mem_sortDesc (y : Scored) (l : List Scored) :
    y ∈ sortDesc l ↔ y ∈ l := by
  induction l with
  | nil => simp [sortDesc]
  | cons x xs ih =>
    rw [sortDesc, mem_insertDesc, ih, List.mem_cons]

/-- Insertion preserves the descending-R² invariant. -/
theorem pairwise_insertDesc (m : Scored) (l : List Scored)
    (h : l.Pairwise (fun u v => v.r2 ≤ u.r2)) :
    (insertDesc m l).Pairwise (fun u v => v.r2 ≤ u.r2) := by
  induction l with
  | nil => simp [insertDesc]
  | cons x xs ih =>
    rw [List.pairwise_cons] at h
    obtain ⟨hx, hxs⟩ := h
    by_cases hlt : m.r2 < x.r2
    · rw [insertDesc, if_pos hlt, List.pairwise_cons]
      refine ⟨?_, ih hxs⟩
      intro z hz
      rcases (mem_insertDesc m z xs).mp hz with rfl | hz2
      · exact le_of_lt hlt
      · exact hx z hz2
    · rw [insertDesc, if_neg hlt, List.pairwise_cons]
      refine ⟨?_, List.pairwise_cons.mpr ⟨hx, hxs⟩⟩
      intro z hz
      rcases List.mem_cons.mp hz with rfl | hz2
      · exact le_of_not_lt hlt
      · exact le_trans (hx z hz2) (le_of_not_lt hlt)

/-- The sorted candidate list is in descending R² order. -/
theorem pairwise_sortDesc (l : List Scored) :
    (sortDesc l).Pairwise (fun u v => v.r2 ≤ u.r2) := by
  induction l with
  | nil => simp [sortDesc]
  | cons x xs ih => exact pairwise_insertDesc x (sortDesc xs) ih

/-- The selected method is on the list and passes the plausibility gate. -/
theorem firstPassing_mem (yObs : Series) (z tol : ℚ) (l : List Scored)
    (m : Scored) (h : firstPassing yObs z tol l = some m) :
    m ∈ l ∧ gateRejects yObs m.pred z tol = false := by
  induction l with
  | nil => simp [firstPassing] at h
  | cons x xs ih =>
    by_cases hg : gateRejects yObs x.pred z tol = true
    · rw [firstPassing, if_pos hg] at h
      obtain ⟨h1, h2⟩ := ih h
      exact ⟨List.mem_cons_of_mem x h1, h2⟩
    · rw [firstPassing, if_neg hg] at h
      obtain rfl : x = m := by simpa using h
      exact ⟨List.mem_cons_self x xs, by simpa using hg⟩

/-- On a descending list, everything scoring strictly above the selected
method was rejected by the gate. -/
theorem firstPassing_higher_fails (yObs : Series) (z tol : ℚ)
    (l : List Scored) (m : Scored)
    (hp : l.Pairwise (fun u v => v.r2 ≤ u.r2))
    (h : firstPassing yObs z tol l = some m) :
    ∀ y ∈ l, m.r2 < y.r2 → gateRejects yObs y.pred z tol = true := by
  induction l with
  | nil => simp [firstPassing] at h
  | cons x xs ih =>
    rw [List.pairwise_cons] at hp
    obtain ⟨hx, hxs⟩ := hp
    by_cases hg : gateRejects yObs x.pred z tol = true
    · rw [firstPassing, if_pos hg] at h
      intro y hy hlt
      rcases List.mem_cons.mp hy with rfl | hy2
      · exact hg
      · exact ih hxs h y hy2 hlt
    · rw [firstPassing, if_neg hg] at h
      obtain rfl : x = m := by simpa using h
      intro y hy hlt
      rcases List.mem_cons.mp hy with rfl | hy2
      · exact absurd hlt (lt_irrefl _)
      · exact absurd hlt (not_lt.mpr (hx y hy2))

/-- Membership in the good-method list: scored from a configured suffix with
R² at or above the threshold. -/
theorem collectGood_mem (frame : Frame) (yObs : Series) (a b : ℕ) (thr : ℚ)
    (sfxs : List MethodId) (sc : Scored) :
    sc ∈ collectGood frame yObs a b thr sfxs ↔
      thr ≤ sc.r2 ∧ ∃ sfx ∈ sfxs, scoreCandidate frame yObs a b sfx = some sc := by
  induction sfxs with
  | nil => simp [collectGood]
  | cons sfx rest ih =>
    cases hsc : scoreCandidate frame yObs a b sfx with
    | none =>
      simp only [collectGood, hsc]
      rw [ih]
      constructor
      · rintro ⟨h1, s, hs, h2⟩
        exact ⟨h1, s, List.mem_cons_of_mem _ hs, h2⟩
      · rintro ⟨h1, s, hs, h2⟩
        rcases List.mem_cons.mp hs with rfl | hs2
        · rw [hsc] at h2; cases h2
        · exact ⟨h1, s, hs2, h2⟩
    | some sc0 =>
      by_cases hthr : thr ≤ sc0.r2
      · simp only [collectGood, hsc, if_pos hthr]
        rw [List.mem_cons, ih]
        constructor
        · rintro (rfl | ⟨h1, s, hs, h2⟩)
          · exact ⟨hthr, sfx, List.mem_cons_self sfx rest, hsc⟩
          · exact ⟨h1, s, List.mem_cons_of_mem _ hs, h2⟩
        · rintro ⟨h1, s, hs, h2⟩
          rcases List.mem_cons.mp hs with rfl | hs2
          · rw [hsc] at h2
            injection h2 with h3
            exact Or.inl h3.symm
          · exact Or.inr ⟨h1, s, hs2, h2⟩
      · simp only [collectGood, hsc, if_neg hthr]
        rw [ih]
        constructor
        · rintro ⟨h1, s, hs, h2⟩
          exact ⟨h1, s, List.mem_cons_of_mem _ hs, h2⟩
        · rintro ⟨h1, s, hs, h2⟩
          rcases List.mem_cons.mp hs with rfl | hs2
          · rw [hsc] at h2
            injection h2 with h3
            rw [h3] at hthr
            exact absurd h1 hthr
          · exact ⟨h1, s, hs2, h2⟩

/-- Membership in the donor list: scored from a donor suffix and, under a
long gap, not too extreme. -/
theorem collectDonors_mem (frame : Frame) (yObs : Series) (a b : ℕ)
    (longGap : Bool) (ratio : ℚ) (sfxs : List MethodId) (d : Scored) :
    d ∈ collectDonors frame yObs a b longGap ratio sfxs ↔
      (∃ sfx ∈ sfxs, scoreCandidate frame yObs a b sfx = some d) ∧
        ¬(longGap = true ∧ tooExtreme yObs d.pred ratio = true) := by
  induction sfxs with
  | nil => simp [collectDonors]
  | cons sfx rest ih =>
    cases hsc : scoreCandidate frame yObs a b sfx with
    | none =>
      simp only [collectDonors, hsc]
      rw [ih]
      constructor
      · rintro ⟨⟨s, hs, h2⟩, h3⟩
        exact ⟨⟨s, List.mem_cons_of_mem _ hs, h2⟩, h3⟩
      · rintro ⟨⟨s, hs, h2⟩, h3⟩
        rcases List.mem_cons.mp hs with rfl | hs2
        · rw [hsc] at h2; cases h2
        · exact ⟨⟨s, hs2, h2⟩, h3⟩
    | some sc0 =>
      by_cases hdrop : (longGap && tooExtreme yObs sc0.pred ratio) = true
      · simp only [collectDonors, hsc, if_pos hdrop]
        rw [ih]
        rw [Bool.and_eq_true] at hdrop
        constructor
        · rintro ⟨⟨s, hs, h2⟩, h3⟩
          exact ⟨⟨s, List.mem_cons_of_mem _ hs, h2⟩, h3⟩
        · rintro ⟨⟨s, hs, h2⟩, h3⟩
          rcases List.mem_cons.mp hs with rfl | hs2
          · rw [hsc] at h2
            injection h2 with h4
            rw [h4] at hdrop
            exact absurd hdrop h3
          · exact ⟨⟨s, hs2, h2⟩, h3⟩
      · simp only [collectDonors, hsc, if_neg hdrop]
        rw [List.mem_cons, ih]
        rw [Bool.and_eq_true] at hdrop
        constructor
        · rintro (rfl | ⟨⟨s, hs, h2⟩, h3⟩)
          · exact ⟨⟨sfx, List.mem_cons_self sfx rest, hsc⟩, hdrop⟩
          · exact ⟨⟨s, List.mem_cons_of_mem _ hs, h2⟩, h3⟩
        · rintro ⟨⟨s, hs, h2⟩, h3⟩
          rcases List.mem_cons.mp hs with rfl | hs2
          · rw [hsc] at h2
            injection h2 with h4
            exact Or.inl h4.symm
          · exact Or.inr ⟨⟨s, hs2, h2⟩, h3⟩
/-- The square-free encoding agrees with the real-valued comparison against
`mean + z * √var + tolerance`. -/
theorem exceedsBound_iff_real (pred mean var tol z : ℚ) (hvar : 0 ≤ var)
    (hz : 0 ≤ z) :
    exceedsBound pred mean var tol z = true ↔
      (mean : ℝ) + (z : ℝ) * Real.sqrt (var : ℝ) + (tol : ℝ) < (pred : ℝ) := by
  have hvr : (0 : ℝ) ≤ (var : ℝ) := by exact_mod_cast hvar
  have hzr : (0 : ℝ) ≤ (z : ℝ) := by exact_mod_cast hz
  have hsq : (z : ℝ) * Real.sqrt (var : ℝ) = Real.sqrt ((z : ℝ) ^ 2 * (var : ℝ)) := by
    rw [Real.sqrt_mul (by positivity), Real.sqrt_sq hzr]
  constructor
  · intro h
    rw [exceedsBound, Bool.and_eq_true, decide_eq_true_eq, decide_eq_true_eq] at h
    obtain ⟨h1, h2⟩ := h
    have h1r : (0 : ℝ) < (pred : ℝ) - (mean : ℝ) - (tol : ℝ) := by exact_mod_cast h1
    have h2r : (z : ℝ) ^ 2 * (var : ℝ) < ((pred : ℝ) - (mean : ℝ) - (tol : ℝ)) ^ 2 := by
      exact_mod_cast h2
    have := (Real.sqrt_lt' h1r).mpr h2r
    rw [← hsq] at this
    linarith
  · intro h
    have hnn : (0 : ℝ) ≤ (z : ℝ) * Real.sqrt (var : ℝ) := by positivity
    have h1r : (0 : ℝ) < (pred : ℝ) - (mean : ℝ) - (tol : ℝ) := by linarith
    have hlt : Real.sqrt ((z : ℝ) ^ 2 * (var : ℝ)) < (pred : ℝ) - (mean : ℝ) - (tol : ℝ) := by
      rw [← hsq]; linarith
    have h2r : (z : ℝ) ^ 2 * (var : ℝ) < ((pred : ℝ) - (mean : ℝ) - (tol : ℝ)) ^ 2 :=
      (Real.sqrt_lt' h1r).mp hlt
    rw [exceedsBound, Bool.and_eq_true, decide_eq_true_eq, decide_eq_true_eq]
    constructor
    · exact_mod_cast h1r
    · exact_mod_cast h2r

/-- A valid value is an entry of the series. -/
theorem valids_mem (xs : Series) (p : ℚ) (h : p ∈ valids xs) : some p ∈ xs := by
  induction xs with
  | nil => simp [valids] at h
  | cons x xs ih =>
    cases x with
    | none => exact List.mem_cons_of_mem _ (ih h)
    | some v =>
      rw [valids, List.mem_cons] at h
      rcases h with rfl | h2
      · exact List.mem_cons_self _ _
      · exact List.mem_cons_of_mem _ (ih h2)

/-- Sample variance is nonnegative. -/
theorem sampleVar_nonneg (xs : Series) (v : ℚ) (h : sampleVar xs = some v) :
    0 ≤ v := by
  rw [sampleVar] at h
  by_cases hlen : (valids xs).length < 2
  · rw [if_pos hlen] at h
    cases h
  · rw [if_neg hlen] at h
    injection h with h2
    rw [← h2]
    apply div_nonneg
    · apply List.sum_nonneg
      intro q hq
      rw [List.mem_map] at hq
      obtain ⟨y, _, rfl⟩ := hq
      positivity
    · have : 2 ≤ (valids xs).length := Nat.le_of_not_lt hlen
      have : (2 : ℚ) ≤ ((valids xs).length : ℚ) := by exact_mod_cast this
      linarith

/-- A method that the gate does not reject has no valid prediction flagged by
the bound encoding. -/
theorem gateRejects_false_all (yObs pred : Series) (z tol μ v : ℚ)
    (hμ : omean yObs = some μ) (hv : sampleVar yObs = some v)
    (h : gateRejects yObs pred z tol = false) :
    ∀ p ∈ valids pred, exceedsBound p μ v tol z = false := by
  intro p hp
  rw [gateRejects, hμ, hv] at h
  rw [List.any_eq_false] at h
  have := h (some p) (valids_mem pred p hp)
  simpa using this

/-- C2: when the outlier-check loop returns a method, primary selection
returns exactly that method; it is one of the good methods (so its R² meets
the threshold), it passes the plausibility gate, and every good method with
strictly higher R² was rejected by the gate — the selector walks the good
methods in descending R² order and takes the first gate-passing one. -/
theorem spec_c2 (frame : Frame) (yObs : Series) (a b : ℕ) (cfg : SelCfg)
    (m : Scored)
    (hfp : firstPassing yObs cfg.zScoreLimit cfg.tolerance
      (sortDesc (collectGood frame yObs a b cfg.r2Threshold cfg.candSuffixes)) =
      some m) :
    selectPrimary frame yObs a b cfg = some (m.suffix, m.pred) ∧
    m ∈ collectGood frame yObs a b cfg.r2Threshold cfg.candSuffixes ∧
    cfg.r2Threshold ≤ m.r2 ∧
    gateRejects yObs m.pred cfg.zScoreLimit cfg.tolerance = false ∧
    ∀ y ∈ collectGood frame yObs a b cfg.r2Threshold cfg.candSuffixes,
      m.r2 < y.r2 →
        gateRejects yObs y.pred cfg.zScoreLimit cfg.tolerance = true := by
  obtain ⟨hmem, hpass⟩ := firstPassing_mem _ _ _ _ _ hfp
  have hmem2 : m ∈ collectGood frame yObs a b cfg.r2Threshold cfg.candSuffixes :=
    (mem_sortDesc m _).mp hmem
  refine ⟨?_, hmem2, ((collectGood_mem _ _ _ _ _ _ m).mp hmem2).1, hpass, ?_⟩
  · rw [selectPrimary, hfp]
  · intro y hy hlt
    exact firstPassing_higher_fails yObs cfg.zScoreLimit cfg.tolerance _ m
      (pairwise_sortDesc _) hfp y ((mem_sortDesc y _).mpr hy) hlt

/-- C2, witness: the claim's own scenario — candidates scoring R² = 0.9 and
R² = 0.85 with threshold 0.8, where the 0.9 candidate predicts a value
(1000) beyond `mean + 3·std + 50`; the 0.85 candidate is selected. -/
theorem spec_c2_witness :
    (firstPassing exYObs2 defaultSelCfg.zScoreLimit defaultSelCfg.tolerance
      (sortDesc (collectGood exFrame2 exYObs2 0 10 defaultSelCfg.r2Threshold
        defaultSelCfg.candSuffixes)) = some exB2) ∧
    selectPrimary exFrame2 exYObs2 0 10 defaultSelCfg =
      some (exB2.suffix, exB2.pred) ∧
    exB2 ∈ collectGood exFrame2 exYObs2 0 10 defaultSelCfg.r2Threshold
      defaultSelCfg.candSuffixes ∧
    defaultSelCfg.r2Threshold ≤ exB2.r2 ∧
    gateRejects exYObs2 exB2.pred defaultSelCfg.zScoreLimit
      defaultSelCfg.tolerance = false ∧
    ∀ y ∈ collectGood exFrame2 exYObs2 0 10 defaultSelCfg.r2Threshold
        defaultSelCfg.candSuffixes,
      exB2.r2 < y.r2 →
        gateRejects exYObs2 y.pred defaultSelCfg.zScoreLimit
          defaultSelCfg.tolerance = true := by
  have hfA : findCol exFrame2 MethodId.annual_gam = some exPredA2 := by
    rw [exFrame2, findCol, if_pos rfl]
  have hfB : findCol exFrame2 MethodId.monthly_regres = some exPredB2 := by
    rw [exFrame2, findCol, if_neg (by intro h; cases h), findCol, if_pos rfl]
  have hfI : findCol exFrame2 MethodId.monthly_interp = none := by
    rw [exFrame2, findCol, if_neg (by intro h; cases h), findCol,
      if_neg (by intro h; cases h)]
    rfl
  have hsA : scoreCandidate exFrame2 exYObs2 0 10 MethodId.annual_gam =
      some ⟨MethodId.annual_gam, 9/10, exPredA2⟩ := by
    simp only [scoreCandidate, hfA]
    norm_num [sliceSer, validPairs, r2Score, ssTot, ssRes, exYObs2, exPredA2]
  have hsB : scoreCandidate exFrame2 exYObs2 0 10 MethodId.monthly_regres =
      some exB2 := by
    simp only [scoreCandidate, hfB]
    norm_num [sliceSer, validPairs, r2Score, ssTot, ssRes, exYObs2, exPredB2, exB2]
  have hsI : scoreCandidate exFrame2 exYObs2 0 10 MethodId.monthly_interp =
      none := by
    simp only [scoreCandidate, hfI]
  have hcg : collectGood exFrame2 exYObs2 0 10 defaultSelCfg.r2Threshold
      defaultSelCfg.candSuffixes =
      [⟨MethodId.annual_gam, 9/10, exPredA2⟩, exB2] := by
    simp only [defaultSelCfg]
    simp only [collectGood, hsA, hsB, hsI]
    norm_num [exB2]
  have hsort : sortDesc [(⟨MethodId.annual_gam, 9/10, exPredA2⟩ : Scored), exB2] =
      [⟨MethodId.annual_gam, 9/10, exPredA2⟩, exB2] := by
    norm_num [sortDesc, insertDesc, exB2]
  have hgA : gateRejects exYObs2 exPredA2 3 50 = true := by
    norm_num [gateRejects, omean, sampleVar, valids, exceedsBound, exYObs2,
      exPredA2]
  have hgB : gateRejects exYObs2 exPredB2 3 50 = false := by
    norm_num [gateRejects, omean, sampleVar, valids, exceedsBound, exYObs2,
      exPredB2]
  have hfp : firstPassing exYObs2 defaultSelCfg.zScoreLimit
      defaultSelCfg.tolerance
      (sortDesc (collectGood exFrame2 exYObs2 0 10 defaultSelCfg.r2Threshold
        defaultSelCfg.candSuffixes)) = some exB2 := by
    rw [hcg, hsort]
    simp only [defaultSelCfg]
    rw [firstPassing, if_pos hgA, firstPassing,
      if_neg (by rw [show exB2.pred = exPredB2 from rfl, hgB]; exact Bool.false_ne_true)]
  exact ⟨hfp, spec_c2 exFrame2 exYObs2 0 10 defaultSelCfg exB2 hfp⟩

/-- C1, amended: every method accepted through the R²-ranked outlier-check
loop obeys the plausibility bound — none of its valid predicted values
exceeds `mean(observed) + z·std(observed) + tolerance` (as a real number).
The claim's further assertion that this also covers the fallback selection
is false: the fallback branch of `interpolate.py` lines 619-627 accepts the
`linear_interp` column without any gate (see the counterexample). -/
theorem spec_c1_amended (frame : Frame) (yObs : Series) (a b : ℕ)
    (cfg : SelCfg) (m : Scored) (mu v : ℚ)
    (hfp : firstPassing yObs cfg.zScoreLimit cfg.tolerance
      (sortDesc (collectGood frame yObs a b cfg.r2Threshold cfg.candSuffixes)) =
      some m)
    (hmu : omean yObs = some mu) (hv : sampleVar yObs = some v)
    (hz : 0 ≤ cfg.zScoreLimit) :
    selectPrimary frame yObs a b cfg = some (m.suffix, m.pred) ∧
    ∀ p ∈ valids m.pred,
      (p : ℝ) ≤ (mu : ℝ) + (cfg.zScoreLimit : ℝ) * Real.sqrt (v : ℝ) +
        (cfg.tolerance : ℝ) := by
  obtain ⟨_, hpass⟩ := firstPassing_mem _ _ _ _ _ hfp
  constructor
  · rw [selectPrimary, hfp]
  · intro p hp
    have hb := gateRejects_false_all yObs m.pred cfg.zScoreLimit cfg.tolerance
      mu v hmu hv hpass p hp
    have hiff := exceedsBound_iff_real p mu v cfg.tolerance cfg.zScoreLimit
      (sampleVar_nonneg yObs v hv) hz
    rw [hb] at hiff
    have : ¬((mu : ℝ) + (cfg.zScoreLimit : ℝ) * Real.sqrt (v : ℝ) +
        (cfg.tolerance : ℝ) < (p : ℝ)) := by
      intro hlt
      exact Bool.false_ne_true (hiff.mpr hlt)
    linarith

/-- C1, witness: a perfect candidate over ten alternating observations is
accepted by the loop, and each of its values (for instance all of
`exYObs1w`'s valid values) respects the real-valued bound. -/
theorem spec_c1_witness :
    (firstPassing exYObs1w defaultSelCfg.zScoreLimit defaultSelCfg.tolerance
      (sortDesc (collectGood exF1w exYObs1w 0 9 defaultSelCfg.r2Threshold
        defaultSelCfg.candSuffixes)) =
      some ⟨MethodId.annual_gam, 1, exYObs1w⟩) ∧
    omean exYObs1w = some 1 ∧ sampleVar exYObs1w = some (10/9) ∧
    (2 : ℚ) ∈ valids exYObs1w ∧
    ((2 : ℚ) : ℝ) ≤ ((1 : ℚ) : ℝ) + ((3 : ℚ) : ℝ) * Real.sqrt (((10/9 : ℚ)) : ℝ) +
      ((50 : ℚ) : ℝ) := by
  have hfA : findCol exF1w MethodId.annual_gam = some exYObs1w := by
    rw [exF1w, findCol, if_pos rfl]
  have hfB : findCol exF1w MethodId.monthly_regres = none := by
    rw [exF1w, findCol, if_neg (by intro h; cases h)]
    rfl
  have hfI : findCol exF1w MethodId.monthly_interp = none := by
    rw [exF1w, findCol, if_neg (by intro h; cases h)]
    rfl
  have hsA : scoreCandidate exF1w exYObs1w 0 9 MethodId.annual_gam =
      some ⟨MethodId.annual_gam, 1, exYObs1w⟩ := by
    simp only [scoreCandidate, hfA]
    norm_num [sliceSer, validPairs, r2Score, ssTot, ssRes, exYObs1w]
  have hsB : scoreCandidate exF1w exYObs1w 0 9 MethodId.monthly_regres = none := by
    simp only [scoreCandidate, hfB]
  have hsI : scoreCandidate exF1w exYObs1w 0 9 MethodId.monthly_interp = none := by
    simp only [scoreCandidate, hfI]
  have hgA : gateRejects exYObs1w exYObs1w 3 50 = false := by
    norm_num [gateRejects, omean, sampleVar, valids, exceedsBound, exYObs1w]
  have hmu : omean exYObs1w = some 1 := by
    norm_num [omean, valids, exYObs1w]
  have hvv : sampleVar exYObs1w = some (10/9) := by
    norm_num [sampleVar, valids, exYObs1w]
  have hfp : firstPassing exYObs1w defaultSelCfg.zScoreLimit
      defaultSelCfg.tolerance
      (sortDesc (collectGood exF1w exYObs1w 0 9 defaultSelCfg.r2Threshold
        defaultSelCfg.candSuffixes)) =
      some ⟨MethodId.annual_gam, 1, exYObs1w⟩ := by
    simp only [defaultSelCfg]
    simp only [collectGood, hsA, hsB, hsI]
    norm_num [sortDesc, insertDesc, firstPassing, hgA]
  have hmem : (2 : ℚ) ∈ valids exYObs1w := by
    norm_num [valids, exYObs1w]
  have hmain := spec_c1_amended exF1w exYObs1w 0 9 defaultSelCfg
    ⟨MethodId.annual_gam, 1, exYObs1w⟩ 1 (10/9) hfp hmu hvv (by norm_num [defaultSelCfg])
  exact ⟨hfp, hmu, hvv, hmem, hmain.2 2 hmem⟩

/-- C1, counterexample: with no scored candidate, the selector falls back to
`linear_interp` — and accepts it even though it carries the value 400, which
exceeds `mean + 3·std + tolerance = 25 + 300 + 50 = 375` over the observed
span (`gateRejects … = true`), refuting the claim that every accepted
method, including a fallback selection, obeys the plausibility bound. -/
theorem spec_c1_counterexample :
    selectVariable exF1 exObs1 defaultSelCfg =
      some ⟨MethodId.linear_interp, none, exObs1⟩ ∧
    gateRejects exObs1 exObs1 defaultSelCfg.zScoreLimit
      defaultSelCfg.tolerance = true := by
  constructor
  · have hfA : findCol exF1 MethodId.annual_gam = none := by
      rw [exF1, findCol, if_neg (by intro h; cases h)]
      rfl
    have hfB : findCol exF1 MethodId.monthly_regres = none := by
      rw [exF1, findCol, if_neg (by intro h; cases h)]
      rfl
    have hfI : findCol exF1 MethodId.monthly_interp = none := by
      rw [exF1, findCol, if_neg (by intro h; cases h)]
      rfl
    have hfL : findCol exF1 MethodId.linear_interp = some exObs1 := by
      rw [exF1, findCol, if_pos rfl]
    have hfirst : firstSomeIdx exObs1 = some 0 := by
      norm_num [firstSomeIdx, exObs1]
    have hlast : lastSomeIdx exObs1 = some 15 := by
      norm_num [lastSomeIdx, exObs1]
    have hslice : sliceSer exObs1 0 15 = exObs1 := by
      norm_num [sliceSer, exObs1]
    have hsA : scoreCandidate exF1 exObs1 0 15 MethodId.annual_gam = none := by
      simp only [scoreCandidate, hfA]
    have hsB : scoreCandidate exF1 exObs1 0 15 MethodId.monthly_regres = none := by
      simp only [scoreCandidate, hfB]
    have hsI : scoreCandidate exF1 exObs1 0 15 MethodId.monthly_interp = none := by
      simp only [scoreCandidate, hfI]
    have hprim : selectPrimary exF1 exObs1 0 15 defaultSelCfg =
        some (MethodId.linear_interp, exObs1) := by
      simp only [selectPrimary, defaultSelCfg]
      simp only [collectGood, hsA, hsB, hsI, sortDesc, firstPassing, hfL, hslice]
    have hnomiss : (missingMask exObs1).any id = false := by
      norm_num [missingMask, exObs1]
    have hwb : writeBack exObs1 0 15 exObs1.length = exObs1 := by
      norm_num [writeBack, exObs1, List.range_succ, valAt]
    simp only [selectVariable, hfirst, hlast, hslice, hprim,
      gapFillPass_noop exF1 exObs1 0 15 defaultSelCfg exObs1 hnomiss, hwb]
  · norm_num [gateRejects, omean, sampleVar, valids, exceedsBound, exObs1,
      defaultSelCfg]

/-- Entries of the written-back full-calendar column. -/
theorem valAt_writeBack (s : Series) (a b n k : ℕ) :
    valAt (writeBack s a b n) k =
      if k < n then (if a ≤ k ∧ k ≤ b then valAt s (k - a) else none)
      else none := by
  rw [writeBack, valAt_map_range]

/-- C7, amended: when the outlier-check loop accepts method `m`, the
selection decision carries `m` as primary and its provisional final series
is `m`'s prediction series restricted to the observed span `[a, b]`: inside
the span every predicted value of `m` is carried unchanged (gap filling only
touches missing positions), and outside the span the final column is
missing — predictions outside the observed span are not carried, contrary to
the claim's "full predicted series" (see the counterexample). -/
theorem spec_c7_amended (frame : Frame) (obs : Series) (cfg : SelCfg)
    (a b : ℕ) (m : Scored) (d : Decision)
    (hfirst : firstSomeIdx obs = some a) (hlast : lastSomeIdx obs = some b)
    (hfp : firstPassing (sliceSer obs a b) cfg.zScoreLimit cfg.tolerance
      (sortDesc (collectGood frame (sliceSer obs a b) a b cfg.r2Threshold
        cfg.candSuffixes)) = some m)
    (hsel : selectVariable frame obs cfg = some d) :
    d.primary = m.suffix ∧
    (∀ k, k < a ∨ b < k → valAt d.finalFull k = none) ∧
    (∀ k v, a ≤ k → k ≤ b → valAt m.pred (k - a) = some v →
      valAt d.finalFull k = some v) := by
  have hb : b < obs.length := (lastSomeIdx_spec obs b hlast).1
  have hsel2 : selectVariable frame obs cfg =
      some ⟨m.suffix,
        (gapFillPass frame (sliceSer obs a b) a b cfg m.pred).2,
        writeBack (gapFillPass frame (sliceSer obs a b) a b cfg m.pred).1 a b
          obs.length⟩ := by
    simp only [selectVariable, hfirst, hlast, selectPrimary, hfp]
  rw [hsel] at hsel2
  injection hsel2 with hd
  subst hd
  refine ⟨rfl, ?_, ?_⟩
  · intro k hk
    rw [valAt_writeBack]
    by_cases hkn : k < obs.length
    · rw [if_pos hkn, if_neg (by omega)]
    · rw [if_neg hkn]
  · intro k v hak hkb hv
    rw [valAt_writeBack, if_pos (by omega), if_pos ⟨hak, hkb⟩]
    exact (spec_c4 frame (sliceSer obs a b) a b cfg m.pred).1 (k - a) v hv

/-- C7, counterexample: the accepted method predicts `7` on day 0, outside
the observed span (days 1..12), yet the final column is missing on day 0 —
the provisional final series is the accepted prediction restricted to the
observed span, not the full predicted series. -/
theorem spec_c7_counterexample :
    selectVariable exFrame7 exObs7 defaultSelCfg = some exD7 ∧
    exD7.primary = MethodId.annual_gam ∧
    valAt exCol7 0 = some 7 ∧
    valAt exD7.finalFull 0 = none := by
  have hfA : findCol exFrame7 MethodId.annual_gam = some exCol7 := by
    rw [exFrame7, findCol, if_pos rfl]
  have hfB : findCol exFrame7 MethodId.monthly_regres = none := by
    rw [exFrame7, findCol, if_neg (by intro h; cases h)]
    rfl
  have hfI : findCol exFrame7 MethodId.monthly_interp = none := by
    rw [exFrame7, findCol, if_neg (by intro h; cases h)]
    rfl
  have hfirst : firstSomeIdx exObs7 = some 1 := by
    norm_num [firstSomeIdx, exObs7]
  have hlast : lastSomeIdx exObs7 = some 12 := by
    norm_num [lastSomeIdx, exObs7]
  have hslice : sliceSer exObs7 1 12 = exYObs7 := by
    norm_num [sliceSer, exObs7, exYObs7]
  have hsA : scoreCandidate exFrame7 exYObs7 1 12 MethodId.annual_gam =
      some exM7 := by
    simp only [scoreCandidate, hfA]
    norm_num [sliceSer, validPairs, r2Score, ssTot, ssRes, exCol7, exYObs7, exM7]
  have hsB : scoreCandidate exFrame7 exYObs7 1 12 MethodId.monthly_regres =
      none := by
    simp only [scoreCandidate, hfB]
  have hsI : scoreCandidate exFrame7 exYObs7 1 12 MethodId.monthly_interp =
      none := by
    simp only [scoreCandidate, hfI]
  have hgate : gateRejects exYObs7 exYObs7 3 50 = false := by
    norm_num [gateRejects, omean, sampleVar, valids, exceedsBound, exYObs7]
  have hfp : firstPassing exYObs7 defaultSelCfg.zScoreLimit
      defaultSelCfg.tolerance
      (sortDesc (collectGood exFrame7 exYObs7 1 12 defaultSelCfg.r2Threshold
        defaultSelCfg.candSuffixes)) = some exM7 := by
    simp only [defaultSelCfg]
    simp only [collectGood, hsA, hsB, hsI]
    norm_num [sortDesc, insertDesc, firstPassing, exM7, hgate]
  have hnomiss : (missingMask exYObs7).any id = false := by
    norm_num [missingMask, exYObs7]
  have hwb : writeBack exYObs7 1 12 exObs7.length = exObs7 := by
    norm_num [writeBack, exObs7, exYObs7, List.range_succ, valAt]
  have hsel : selectVariable exFrame7 exObs7 defaultSelCfg = some exD7 := by
    have hprim : selectPrimary exFrame7 exYObs7 1 12 defaultSelCfg =
        some (MethodId.annual_gam, exYObs7) := by
      simp only [selectPrimary, hfp]
      rfl
    simp only [selectVariable, hfirst, hlast, hslice, hprim,
      gapFillPass_noop exFrame7 exYObs7 1 12 defaultSelCfg exYObs7 hnomiss, hwb]
    rfl
  exact ⟨hsel, rfl, rfl, rfl⟩

/-- C7, witness: the amended statement applied to the counterexample data —
inside the span the accepted values are carried (day 1 holds `0`), outside
the span the final column is missing (day 0). -/
theorem spec_c7_witness :
    exD7.primary = exM7.suffix ∧
    valAt exD7.finalFull 0 = none ∧
    valAt exD7.finalFull 1 = some 0 := by
  have hfA : findCol exFrame7 MethodId.annual_gam = some exCol7 := by
    rw [exFrame7, findCol, if_pos rfl]
  have hfB : findCol exFrame7 MethodId.monthly_regres = none := by
    rw [exFrame7, findCol, if_neg (by intro h; cases h)]
    rfl
  have hfI : findCol exFrame7 MethodId.monthly_interp = none := by
    rw [exFrame7, findCol, if_neg (by intro h; cases h)]
    rfl
  have hfirst : firstSomeIdx exObs7 = some 1 := by
    norm_num [firstSomeIdx, exObs7]
  have hlast : lastSomeIdx exObs7 = some 12 := by
    norm_num [lastSomeIdx, exObs7]
  have hslice : sliceSer exObs7 1 12 = exYObs7 := by
    norm_num [sliceSer, exObs7, exYObs7]
  have hsA : scoreCandidate exFrame7 exYObs7 1 12 MethodId.annual_gam =
      some exM7 := by
    simp only [scoreCandidate, hfA]
    norm_num [sliceSer, validPairs, r2Score, ssTot, ssRes, exCol7, exYObs7, exM7]
  have hsB : scoreCandidate exFrame7 exYObs7 1 12 MethodId.monthly_regres =
      none := by
    simp only [scoreCandidate, hfB]
  have hsI : scoreCandidate exFrame7 exYObs7 1 12 MethodId.monthly_interp =
      none := by
    simp only [scoreCandidate, hfI]
  have hgate : gateRejects exYObs7 exYObs7 3 50 = false := by
    norm_num [gateRejects, omean, sampleVar, valids, exceedsBound, exYObs7]
  have hfp0 : firstPassing exYObs7 defaultSelCfg.zScoreLimit
      defaultSelCfg.tolerance
      (sortDesc (collectGood exFrame7 exYObs7 1 12 defaultSelCfg.r2Threshold
        defaultSelCfg.candSuffixes)) = some exM7 := by
    simp only [defaultSelCfg]
    simp only [collectGood, hsA, hsB, hsI]
    norm_num [sortDesc, insertDesc, firstPassing, exM7, hgate]
  have hfp : firstPassing (sliceSer exObs7 1 12) defaultSelCfg.zScoreLimit
      defaultSelCfg.tolerance
      (sortDesc (collectGood exFrame7 (sliceSer exObs7 1 12) 1 12
        defaultSelCfg.r2Threshold defaultSelCfg.candSuffixes)) = some exM7 := by
    rw [hslice]
    exact hfp0
  have hnomiss : (missingMask exYObs7).any id = false := by
    norm_num [missingMask, exYObs7]
  have hwb : writeBack exYObs7 1 12 exObs7.length = exObs7 := by
    norm_num [writeBack, exObs7, exYObs7, List.range_succ, valAt]
  have hsel : selectVariable exFrame7 exObs7 defaultSelCfg = some exD7 := by
    have hprim : selectPrimary exFrame7 exYObs7 1 12 defaultSelCfg =
        some (MethodId.annual_gam, exYObs7) := by
      simp only [selectPrimary, hfp0]
      rfl
    simp only [selectVariable, hfirst, hlast, hslice, hprim,
      gapFillPass_noop exFrame7 exYObs7 1 12 defaultSelCfg exYObs7 hnomiss, hwb]
    rfl
  obtain ⟨h1, h2, h3⟩ := spec_c7_amended exFrame7 exObs7 defaultSelCfg 1 12
    exM7 exD7 hfirst hlast hfp hsel
  exact ⟨h1, h2 0 (Or.inl (by omega)), h3 1 0 (by omega) (by omega) rfl⟩

/-- Folding `min` over dates only moves down. -/
theorem foldlMin_le_init (l : List QRow) (init : ℤ) :
    l.foldl (fun acc x => min acc x.1) init ≤ init := by
  induction l generalizing init with
  | nil => simp
  | cons r rest ih =>
    calc rest.foldl (fun acc x => min acc x.1) (min init r.1) ≤ min init r.1 :=
        ih (min init r.1)
      _ ≤ init := min_le_left _ _

/-- The date fold is a lower bound of every date. -/
theorem foldlMin_le_mem (l : List QRow) (init : ℤ) (x : QRow) (hx : x ∈ l) :
    l.foldl (fun acc x => min acc x.1) init ≤ x.1 := by
  induction l generalizing init with
  | nil => cases hx
  | cons r rest ih =>
    rcases List.mem_cons.mp hx with rfl | hx2
    · calc rest.foldl (fun acc y => min acc y.1) (min init x.1) ≤ min init x.1 :=
          foldlMin_le_init rest _
        _ ≤ x.1 := min_le_right _ _
    · exact ih (min init r.1) hx2

/-- The date fold is attained by the seed or by some row. -/
theorem foldlMin_attained (l : List QRow) (init : ℤ) :
    l.foldl (fun acc x => min acc x.1) init = init ∨
      ∃ x ∈ l, l.foldl (fun acc x => min acc x.1) init = x.1 := by
  induction l generalizing init with
  | nil => exact Or.inl rfl
  | cons r rest ih =>
    rcases ih (min init r.1) with h | ⟨x, hx, h⟩
    · rcases le_total init r.1 with hle | hle
      · exact Or.inl (by rw [List.foldl_cons, h, min_eq_left hle])
      · exact Or.inr ⟨r, List.mem_cons_self r rest,
          by rw [List.foldl_cons, h, min_eq_right hle]⟩
    · exact Or.inr ⟨x, List.mem_cons_of_mem r hx, by rw [List.foldl_cons, h]⟩

/-- Folding `max` over dates only moves up. -/
theorem foldlMax_init_le (l : List QRow) (init : ℤ) :
    init ≤ l.foldl (fun acc x => max acc x.1) init := by
  induction l generalizing init with
  | nil => simp
  | cons r rest ih =>
    calc init ≤ max init r.1 := le_max_left _ _
      _ ≤ rest.foldl (fun acc x => max acc x.1) (max init r.1) :=
        ih (max init r.1)

/-- The date fold is an upper bound of every date. -/
theorem foldlMax_mem_le (l : List QRow) (init : ℤ) (x : QRow) (hx : x ∈ l) :
    x.1 ≤ l.foldl (fun acc x => max acc x.1) init := by
  induction l generalizing init with
  | nil => cases hx
  | cons r rest ih =>
    rcases List.mem_cons.mp hx with rfl | hx2
    · calc x.1 ≤ max init x.1 := le_max_right _ _
        _ ≤ rest.foldl (fun acc y => max acc y.1) (max init x.1) :=
          foldlMax_init_le rest _
    · exact ih (max init r.1) hx2

/-- The date fold is attained by the seed or by some row. -/
theorem foldlMax_attained (l : List QRow) (init : ℤ) :
    l.foldl (fun acc x => max acc x.1) init = init ∨
      ∃ x ∈ l, l.foldl (fun acc x => max acc x.1) init = x.1 := by
  induction l generalizing init with
  | nil => exact Or.inl rfl
  | cons r rest ih =>
    rcases ih (max init r.1) with h | ⟨x, hx, h⟩
    · rcases le_total init r.1 with hle | hle
      · exact Or.inr ⟨r, List.mem_cons_self r rest,
          by rw [List.foldl_cons, h, max_eq_right hle]⟩
      · exact Or.inl (by rw [List.foldl_cons, h, max_eq_left hle])
    · exact Or.inr ⟨x, List.mem_cons_of_mem r hx, by rw [List.foldl_cons, h]⟩

/-- `datesMin` bounds every date from below. -/
theorem datesMin_le (q : List QRow) (x : QRow) (hx : x ∈ q) :
    datesMin q ≤ x.1 := by
  cases q with
  | nil => cases hx
  | cons r rest =>
    rcases List.mem_cons.mp hx with rfl | hx2
    · exact foldlMin_le_init rest x.1
    · exact foldlMin_le_mem rest r.1 x hx2

/-- `datesMin` is one of the dates. -/
theorem datesMin_mem (q : List QRow) (h : q ≠ []) :
    datesMin q ∈ q.map Prod.fst := by
  cases q with
  | nil => exact absurd rfl h
  | cons r rest =>
    rcases foldlMin_attained rest r.1 with h2 | ⟨x, hx, h2⟩
    · rw [datesMin, h2]
      exact List.mem_map_of_mem Prod.fst (List.mem_cons_self r rest)
    · rw [datesMin, h2]
      exact List.mem_map_of_mem Prod.fst (List.mem_cons_of_mem r hx)

/-- `datesMax` bounds every date from above. -/
theorem le_datesMax (q : List QRow) (x : QRow) (hx : x ∈ q) :
    x.1 ≤ datesMax q := by
  cases q with
  | nil => cases hx
  | cons r rest =>
    rcases List.mem_cons.mp hx with rfl | hx2
    · exact foldlMax_init_le rest x.1
    · exact foldlMax_mem_le rest r.1 x hx2

/-- `datesMax` is one of the dates. -/
theorem datesMax_mem (q : List QRow) (h : q ≠ []) :
    datesMax q ∈ q.map Prod.fst := by
  cases q with
  | nil => exact absurd rfl h
  | cons r rest =>
    rcases foldlMax_attained rest r.1 with h2 | ⟨x, hx, h2⟩
    · rw [datesMax, h2]
      exact List.mem_map_of_mem Prod.fst (List.mem_cons_self r rest)
    · rw [datesMax, h2]
      exact List.mem_map_of_mem Prod.fst (List.mem_cons_of_mem r hx)

/-- Deduplication preserves the set of dates not already seen. -/
theorem mem_map_fst_dropDupDates (q : List QRow) (seen : List ℤ) (d : ℤ) :
    d ∈ (dropDupDates seen q).map Prod.fst ↔
      d ∈ q.map Prod.fst ∧ d ∉ seen := by
  induction q generalizing seen with
  | nil => simp [dropDupDates]
  | cons r rest ih =>
    by_cases hr : r.1 ∈ seen
    · rw [dropDupDates, if_pos hr, ih]
      simp only [List.map_cons, List.mem_cons]
      constructor
      · rintro ⟨h1, h2⟩
        exact ⟨Or.inr h1, h2⟩
      · rintro ⟨h1 | h1, h2⟩
        · exact absurd (h1 ▸ hr) h2
        · exact ⟨h1, h2⟩
    · rw [dropDupDates, if_neg hr]
      simp only [List.map_cons, List.mem_cons, ih]
      constructor
      · rintro (rfl | ⟨h1, h2⟩)
        · exact ⟨Or.inl rfl, hr⟩
        · push_neg at h2
          exact ⟨Or.inr h1, h2.2⟩
      · rintro ⟨h1 | h1, h2⟩
        · exact Or.inl h1
        · by_cases hd : d = r.1
          · exact Or.inl hd
          · refine Or.inr ⟨h1, ?_⟩
            push_neg
            exact ⟨hd, h2⟩

/-- Deduplication of a nonempty frame is nonempty. -/
theorem dropDupDates_ne_nil (q : List QRow) (h : q ≠ []) :
    dropDupDates [] q ≠ [] := by
  cases q with
  | nil => exact absurd rfl h
  | cons r rest =>
    rw [dropDupDates, if_neg (List.not_mem_nil r.1)]
    exact List.cons_ne_nil r _

/-- Deduplication keeps the minimum date. -/
theorem datesMin_dropDupDates (q : List QRow) (h : q ≠ []) :
    datesMin (dropDupDates [] q) = datesMin q := by
  apply le_antisymm
  · have hmem := datesMin_mem q h
    rw [List.mem_map] at hmem
    obtain ⟨x, hx, hxd⟩ := hmem
    have hx2 : datesMin q ∈ (dropDupDates [] q).map Prod.fst := by
      rw [mem_map_fst_dropDupDates]
      exact ⟨by rw [List.mem_map]; exact ⟨x, hx, hxd⟩, List.not_mem_nil _⟩
    rw [List.mem_map] at hx2
    obtain ⟨y, hy, hyd⟩ := hx2
    calc datesMin (dropDupDates [] q) ≤ y.1 := datesMin_le _ y hy
      _ = datesMin q := hyd
  · have hmem := datesMin_mem (dropDupDates [] q) (dropDupDates_ne_nil q h)
    rw [List.mem_map] at hmem
    obtain ⟨y, hy, hyd⟩ := hmem
    have : y.1 ∈ (dropDupDates [] q).map Prod.fst :=
      List.mem_map_of_mem Prod.fst hy
    rw [mem_map_fst_dropDupDates, List.mem_map] at this
    obtain ⟨⟨x, hx, hxd⟩, _⟩ := this
    calc datesMin q ≤ x.1 := datesMin_le q x hx
      _ = y.1 := hxd
      _ = datesMin (dropDupDates [] q) := hyd

/-- Deduplication keeps the maximum date. -/
theorem datesMax_dropDupDates (q : List QRow) (h : q ≠ []) :
    datesMax (dropDupDates [] q) = datesMax q := by
  apply le_antisymm
  · have hmem := datesMax_mem (dropDupDates [] q) (dropDupDates_ne_nil q h)
    rw [List.mem_map] at hmem
    obtain ⟨y, hy, hyd⟩ := hmem
    have : y.1 ∈ (dropDupDates [] q).map Prod.fst :=
      List.mem_map_of_mem Prod.fst hy
    rw [mem_map_fst_dropDupDates, List.mem_map] at this
    obtain ⟨⟨x, hx, hxd⟩, _⟩ := this
    calc datesMax (dropDupDates [] q) = y.1 := hyd.symm
      _ = x.1 := hxd.symm
      _ ≤ datesMax q := le_datesMax q x hx
  · have hmem := datesMax_mem q h
    rw [List.mem_map] at hmem
    obtain ⟨x, hx, hxd⟩ := hmem
    have hx2 : datesMax q ∈ (dropDupDates [] q).map Prod.fst := by
      rw [mem_map_fst_dropDupDates]
      exact ⟨by rw [List.mem_map]; exact ⟨x, hx, hxd⟩, List.not_mem_nil _⟩
    rw [List.mem_map] at hx2
    obtain ⟨y, hy, hyd⟩ := hx2
    calc datesMax q = y.1 := hyd.symm
      _ ≤ datesMax (dropDupDates [] q) := le_datesMax _ y hy

/-- Membership in the daily calendar. -/
theorem mem_calendarDates (dmin : ℤ) (n : ℕ) (d : ℤ) :
    d ∈ calendarDates dmin n ↔ dmin ≤ d ∧ d < dmin + n := by
  induction n generalizing dmin with
  | zero => simp [calendarDates]
  | succ n ih =>
    rw [calendarDates, List.mem_cons, ih]
    constructor
    · rintro (rfl | ⟨h1, h2⟩)
      · constructor <;> omega
      · push_cast at h2 ⊢
        constructor <;> omega
    · rintro ⟨h1, h2⟩
      by_cases hd : d = dmin
      · exact Or.inl hd
      · refine Or.inr ⟨by omega, ?_⟩
        push_cast at h2 ⊢
        omega

/-- Calendar days are consecutive. -/
theorem chain_calendarDates (dmin : ℤ) (n : ℕ) :
    List.Chain' (fun x y => x + 1 = y) (calendarDates dmin n) := by
  induction n generalizing dmin with
  | zero => exact List.chain'_nil
  | succ n ih =>
    rw [calendarDates]
    apply List.chain'_cons'.mpr
    refine ⟨?_, ih (dmin + 1)⟩
    intro y hy
    cases n with
    | zero => simp [calendarDates] at hy
    | succ n =>
      rw [calendarDates, List.head?_cons, Option.mem_def] at hy
      injection hy with hy2

/-- Calendar days are strictly increasing (hence free of duplicates). -/
theorem pairwise_calendarDates (dmin : ℤ) (n : ℕ) :
    List.Pairwise (fun x y => x < y) (calendarDates dmin n) := by
  induction n generalizing dmin with
  | zero => exact List.Pairwise.nil
  | succ n ih =>
    rw [calendarDates, List.pairwise_cons]
    refine ⟨?_, ih (dmin + 1)⟩
    intro y hy
    rw [mem_calendarDates] at hy
    omega

/-- The calendar starts at its base day. -/
theorem head_calendarDates (dmin : ℤ) (n : ℕ) (h : n ≠ 0) :
    (calendarDates dmin n).head? = some dmin := by
  cases n with
  | zero => exact absurd rfl h
  | succ n => rfl

/-- Projecting the date column back out of built day rows. -/
theorem map_date_mkRow (L : List ℤ) (qd : List QRow) (wc : List WcRow) :
    (L.map (fun d =>
      (⟨d, qLookup qd d, meanOfList (chemValsAt wc d)⟩ : DayRow))).map
    DayRow.date = L := by
  induction L with
  | nil => rfl
  | cons d ds ih => simp only [List.map_cons, ih]

/-- C8: for a nonempty discharge frame, the merged daily frame has exactly
one row per calendar day from the earliest to the latest discharge date
inclusive — consecutive, strictly increasing, duplicate-free dates starting
at the earliest date — and each row's chemistry value is the arithmetic mean
of the chemistry observations of that day (duplicates collapsed, missing
when none). -/
theorem spec_c8 (q : List QRow) (wc : List WcRow) (hq : q ≠ []) :
    ∃ rows, merge_daily_wc_q q wc = some rows ∧
      rows.map DayRow.date =
        calendarDates (datesMin q) (datesMax q + 1 - datesMin q).toNat ∧
      List.Chain' (fun x y => x + 1 = y) (rows.map DayRow.date) ∧
      List.Pairwise (fun x y => x < y) (rows.map DayRow.date) ∧
      (∀ d : ℤ, d ∈ rows.map DayRow.date ↔
        datesMin q ≤ d ∧ d ≤ datesMax q) ∧
      (rows.map DayRow.date).head? = some (datesMin q) ∧
      (∀ r ∈ rows, r.chem = meanOfList (chemValsAt wc r.date)) := by
  have hmin := datesMin_dropDupDates q hq
  have hmax := datesMax_dropDupDates q hq
  have hminmax : datesMin q ≤ datesMax q := by
    have h1 := datesMin_mem q hq
    rw [List.mem_map] at h1
    obtain ⟨x, hx, hxd⟩ := h1
    calc datesMin q = x.1 := hxd.symm
      _ ≤ datesMax q := le_datesMax q x hx
  have hn : (((datesMax q + 1 - datesMin q).toNat : ℤ)) =
      datesMax q + 1 - datesMin q := Int.toNat_of_nonneg (by omega)
  cases q with
  | nil => exact absurd rfl hq
  | cons q0 qrest =>
    refine ⟨(calendarDates (datesMin (q0 :: qrest))
        ((datesMax (q0 :: qrest) + 1 - datesMin (q0 :: qrest)).toNat)).map
      (fun d => ⟨d, qLookup (dropDupDates [] (q0 :: qrest)) d,
        meanOfList (chemValsAt wc d)⟩), ?_, ?_, ?_, ?_, ?_, ?_, ?_⟩
    · simp only [merge_daily_wc_q, hmin, hmax]
    · exact map_date_mkRow _ _ wc
    · rw [map_date_mkRow]
      exact chain_calendarDates _ _
    · rw [map_date_mkRow]
      exact pairwise_calendarDates _ _
    · intro d
      rw [map_date_mkRow, mem_calendarDates]
      omega
    · rw [map_date_mkRow]
      apply head_calendarDates
      omega
    · intro r hr
      rw [List.mem_map] at hr
      obtain ⟨d, _, rfl⟩ := hr
      rfl

/-- C8, witness: a concrete merge — discharge dates {5, 7} with a duplicate
day-5 row, chemistry twice on day 6 (mean 5) and once outside the range —
and the structural guarantees instantiated on it. -/
theorem spec_c8_witness :
    exQ8 ≠ [] ∧
    merge_daily_wc_q exQ8 exWc8 = some exRows8 ∧
    (∃ rows, merge_daily_wc_q exQ8 exWc8 = some rows ∧
      rows.map DayRow.date =
        calendarDates (datesMin exQ8) (datesMax exQ8 + 1 - datesMin exQ8).toNat ∧
      List.Chain' (fun x y => x + 1 = y) (rows.map DayRow.date) ∧
      List.Pairwise (fun x y => x < y) (rows.map DayRow.date) ∧
      (∀ d : ℤ, d ∈ rows.map DayRow.date ↔
        datesMin exQ8 ≤ d ∧ d ≤ datesMax exQ8) ∧
      (rows.map DayRow.date).head? = some (datesMin exQ8) ∧
      (∀ r ∈ rows, r.chem = meanOfList (chemValsAt exWc8 r.date))) := by
  refine ⟨by simp [exQ8], ?_, spec_c8 exQ8 exWc8 (by simp [exQ8])⟩
  norm_num [merge_daily_wc_q, exQ8, exWc8, exRows8, dropDupDates, datesMin,
    datesMax, calendarDates, qLookup, chemValsAt, meanOfList]
  exact fun h => absurd h (List.cons_ne_nil 4 [6])

/-- Valid pairs decompose along aligned concatenations. -/
theorem validPairs_append (as bs cs ds : Series) (h : as.length = bs.length) :
    validPairs (as ++ cs) (bs ++ ds) = validPairs as bs ++ validPairs cs ds := by
  induction as generalizing bs with
  | nil =>
    cases bs with
    | nil => rfl
    | cons b bs2 => simp at h
  | cons a as2 ih =>
    cases bs with
    | nil => simp at h
    | cons b bs2 =>
      have h2 : as2.length = bs2.length := by simpa using h
      cases a with
      | none => simpa [validPairs] using ih bs2 h2
      | some va =>
        cases b with
        | none => simpa [validPairs] using ih bs2 h2
        | some vb => simpa [validPairs] using ih bs2 h2

/-- An all-missing left column contributes no valid pairs. -/
theorem validPairs_replicate_none_left (n : ℕ) (ys : Series) :
    validPairs (List.replicate n none) ys = [] := by
  induction n generalizing ys with
  | zero => cases ys <;> rfl
  | succ n ih =>
    cases ys with
    | nil => rfl
    | cons y ys2 => simpa [List.replicate_succ, validPairs] using ih ys2

/-- A block of `n` missing days extends the current run by `n`. -/
theorem longestRunAux_replicate_true (n : ℕ) (rest : List Bool)
    (cur best : ℕ) :
    longestRunAux (List.replicate n true ++ rest) cur best =
      longestRunAux rest (cur + n) best := by
  induction n generalizing cur with
  | zero => rfl
  | succ n ih =>
    rw [List.replicate_succ, List.cons_append, longestRunAux, ih]
    congr 1
    omega

/-- A slice from day 0 through at least the last index is the whole series. -/
theorem sliceSer_full (xs : Series) (b : ℕ) (h : xs.length ≤ b + 1) :
    sliceSer xs 0 b = xs := by
  rw [sliceSer, List.drop_zero, Nat.sub_zero]
  exact List.take_of_length_le h

/-- C5: a scored donor survives collection exactly when it is not the case
that the longest still-missing run reaches 1460 days and its predictions are
too extreme — the extreme-prediction rejection applies exactly under a long
gap; and when no donor survives, the gap-fill pass leaves the series
unchanged and records no donor. -/
theorem spec_c5 (frame : Frame) (yObs : Series) (a b : ℕ) (cfg : SelCfg)
    (sel : Series) (d : Scored) :
    (d ∈ collectDonors frame yObs a b
        (decide (1460 ≤ longestRun (missingMask sel))) cfg.extremeRatioLimit
        gapDonorSuffixes ↔
      (∃ sfx ∈ gapDonorSuffixes, scoreCandidate frame yObs a b sfx = some d) ∧
      ¬(1460 ≤ longestRun (missingMask sel) ∧
        tooExtreme yObs d.pred cfg.extremeRatioLimit = true)) ∧
    (collectDonors frame yObs a b
        (decide (1460 ≤ longestRun (missingMask sel))) cfg.extremeRatioLimit
        gapDonorSuffixes = [] →
      gapFillPass frame yObs a b cfg sel = (sel, none)) := by
  constructor
  · rw [collectDonors_mem]
    simp only [decide_eq_true_eq]
  · exact gapFillPass_no_donor frame yObs a b cfg sel
/-- A block of `n` observed days resets the current run. -/
theorem longestRunAux_replicate_false (n : ℕ) (rest : List Bool) (best : ℕ) :
    longestRunAux (List.replicate n false ++ rest) 0 best =
      longestRunAux rest 0 best := by
  induction n with
  | zero => rfl
  | succ n ih =>
    rw [List.replicate_succ, List.cons_append, longestRunAux]
    simpa using ih

set_option maxRecDepth 10000 in
set_option maxHeartbeats 1000000 in
/-- C5, witness: the claim scenario — a 1500-day contiguous missing run
(≥ 1460), a donor whose predicted maximum is 9 = 3 × observed maximum with
ratio limit 2 — the donor is scored but rejected, and with no surviving
donor the gap-fill pass leaves the series (and its gap) unchanged. -/
theorem spec_c5_witness :
    scoreCandidate exFrame5 exYObs5 0 1511 MethodId.annual_gam = some exDonor5 ∧
    longestRun (missingMask exYObs5) = 1500 ∧
    tooExtreme exYObs5 exDonor5.pred defaultSelCfg.extremeRatioLimit = true ∧
    exDonor5 ∉ collectDonors exFrame5 exYObs5 0 1511
      (decide (1460 ≤ longestRun (missingMask exYObs5)))
      defaultSelCfg.extremeRatioLimit gapDonorSuffixes ∧
    gapFillPass exFrame5 exYObs5 0 1511 defaultSelCfg exYObs5 =
      (exYObs5, none) := by
  have hf : findCol exFrame5 MethodId.annual_gam = some exDonorCol5 := by
    rw [exFrame5, findCol, if_pos rfl]
  have hfB : findCol exFrame5 MethodId.monthly_regres = none := by
    rw [exFrame5, findCol, if_neg (by intro h; cases h)]
    rfl
  have hlen : exDonorCol5.length = 1512 := by simp [exDonorCol5]
  have hslice : sliceSer exDonorCol5 0 1511 = exDonorCol5 :=
    sliceSer_full exDonorCol5 1511 (by omega)
  have hvp : validPairs exYObs5 exDonorCol5 =
      [(1,9),(3,3),(1,1),(3,3),(1,1),(3,3),(1,1),(3,3),(1,1),(3,3),(1,1),(3,3)] := by
    rw [exYObs5, exDonorCol5, exHead5,
      validPairs_append _ _ _ _ (by simp),
      validPairs_append _ _ _ _ (by simp),
      validPairs_replicate_none_left]
    norm_num [validPairs]
  have hr2 : r2Score
      [((1:ℚ),(9:ℚ)),(3,3),(1,1),(3,3),(1,1),(3,3),(1,1),(3,3),(1,1),(3,3),(1,1),(3,3)] =
      -13/3 := by
    norm_num [r2Score, ssTot, ssRes]
  have hsc : scoreCandidate exFrame5 exYObs5 0 1511 MethodId.annual_gam =
      some exDonor5 := by
    simp only [scoreCandidate, hf, hslice, hvp, hr2]
    norm_num [exDonor5]
  have hmask : missingMask exYObs5 =
      List.replicate 10 false ++ (List.replicate 1500 true ++ [false, false]) := by
    rw [exYObs5, exHead5, missingMask]
    simp only [List.map_append, List.map_replicate, List.map_cons, List.map_nil,
      Option.isNone_some, Option.isNone_none, List.append_assoc]
    rfl
  have hlr : longestRun (missingMask exYObs5) = 1500 := by
    rw [longestRun, hmask, longestRunAux_replicate_false,
      longestRunAux_replicate_true]
    simp only [longestRunAux]
    omega
  have hvobs : valids exYObs5 = [1,3,1,3,1,3,1,3,1,3,1,3] := by
    rw [exYObs5, exHead5, valids_append, valids_append, valids_replicate_none]
    norm_num [valids]
  have hvdon : valids exDonorCol5 = [9,3,1,3,1,3,1,3,1,3,1,3] := by
    rw [exDonorCol5, valids_append, valids_append, valids_replicate_none]
    norm_num [valids]
  have homin : omin exYObs5 = some 1 := by
    rw [omin, hvobs]
    norm_num [min_def]
  have homax : omax exYObs5 = some 3 := by
    rw [omax, hvobs]
    norm_num [max_def]
  have hdmin : omin exDonorCol5 = some 1 := by
    rw [omin, hvdon]
    norm_num [min_def]
  have hdmax : omax exDonorCol5 = some 9 := by
    rw [omax, hvdon]
    norm_num [max_def]
  have hte : tooExtreme exYObs5 exDonorCol5 defaultSelCfg.extremeRatioLimit = true := by
    show tooExtreme exYObs5 exDonorCol5 2 = true
    simp only [tooExtreme, homin, homax, hdmin, hdmax]
    norm_num
  have hcd : collectDonors exFrame5 exYObs5 0 1511
      (decide (1460 ≤ longestRun (missingMask exYObs5)))
      defaultSelCfg.extremeRatioLimit gapDonorSuffixes = [] := by
    have hsB : scoreCandidate exFrame5 exYObs5 0 1511 MethodId.monthly_regres =
        none := by
      simp only [scoreCandidate, hfB]
    rw [hlr]
    simp only [gapDonorSuffixes, collectDonors, hsc, hsB, exDonor5, hte]
    norm_num
  refine ⟨hsc, hlr, ?_, ?_, ?_⟩
  · exact hte
  · intro hmem
    have h2 := ((spec_c5 exFrame5 exYObs5 0 1511 defaultSelCfg exYObs5
      exDonor5).1.mp hmem).2
    exact h2 ⟨by rw [hlr]; norm_num, hte⟩
  · exact (spec_c5 exFrame5 exYObs5 0 1511 defaultSelCfg exYObs5 exDonor5).2 hcd

/-- Anchor days are strictly increasing in the month. -/
theorem anchorDoy_mono : ∀ (l : Bool), ∀ m1, m1 < 12 → ∀ m2, m2 < 12 →
    m1 < m2 → anchorDoy l m1 < anchorDoy l m2 := by decide

/-- Anchor days lie strictly inside the year: at least day 15, and at least
16 days before the end of the year. -/
theorem anchorDoy_bounds : ∀ (l : Bool), ∀ m, m < 12 →
    15 ≤ anchorDoy l m ∧ anchorDoy l m + 16 ≤ yearLen l := by decide

/-- The year has at least 365 days. -/
theorem yearLen_ge : ∀ (l : Bool), 365 ≤ yearLen l := by decide

/-- Each month is found at its own anchor day. -/
theorem monthAtAnchor_self : ∀ (l : Bool), ∀ m, m < 12 →
    monthAtAnchor l (anchorDoy l m) = some m := by decide

/-- Soundness of the anchor lookup. -/
theorem monthAtAnchor_sound (l : Bool) (d m : ℕ)
    (h : monthAtAnchor l d = some m) : m < 12 ∧ anchorDoy l m = d := by
  constructor
  · have := List.mem_of_find?_eq_some h
    simpa using this
  · have := List.find?_some h
    simpa using this

/-- No anchor day lies strictly between two consecutive anchors. -/
theorem monthAtAnchor_between (l : Bool) (m d : ℕ) (hm : m + 1 < 12)
    (h1 : anchorDoy l m < d) (h2 : d < anchorDoy l (m + 1)) :
    monthAtAnchor l d = none := by
  cases hma : monthAtAnchor l d with
  | none => rfl
  | some m2 =>
    obtain ⟨hm2, hd⟩ := monthAtAnchor_sound l d m2 hma
    rcases Nat.lt_trichotomy m2 m with hc | rfl | hc
    · have := anchorDoy_mono l m2 hm2 m (by omega) hc
      omega
    · omega
    · rcases Nat.eq_or_lt_of_le hc with heq | hc2
      · rw [← heq, Nat.succ_eq_add_one] at hd
        omega
      · have := anchorDoy_mono l (m + 1) hm m2 hm2 (by omega)
        omega

/-- Entries of the clamped series. -/
theorem valAt_clampNeg (xs : Series) (k : ℕ) :
    valAt (clampNeg xs) k =
      Option.map (fun v => if v < 0 then 0 else v) (valAt xs k) := by
  rw [valAt_eq_getElem, valAt_eq_getElem, clampNeg, List.getElem?_map]
  cases xs[k]? with
  | none => rfl
  | some o => cases o <;> rfl

/-- The seeded series holds the month median on that month's anchor day. -/
theorem seededVal_anchor (l : Bool) (profile : ℕ → Option ℚ) (m : ℕ)
    (hm : m < 12) :
    seededVal l profile (anchorDoy l m - 1) = profile m := by
  obtain ⟨hlo, hhi⟩ := anchorDoy_bounds l m hm
  have hy := yearLen_ge l
  rw [seededVal, if_neg (by omega)]
  have : anchorDoy l m - 1 + 1 = anchorDoy l m := by omega
  rw [this, monthAtAnchor_self l m hm]

/-- The seeded series holds the year-boundary seed on January 1. -/
theorem seededVal_start (l : Bool) (profile : ℕ → Option ℚ) :
    seededVal l profile 0 = endVal profile := by
  rw [seededVal, if_pos (Or.inl rfl)]

/-- The seeded series holds the year-boundary seed on December 31. -/
theorem seededVal_end (l : Bool) (profile : ℕ → Option ℚ) :
    seededVal l profile (yearLen l - 1) = endVal profile := by
  rw [seededVal, if_pos (Or.inr rfl)]

/-- The seeded series is missing strictly between consecutive anchors. -/
theorem seededVal_between (l : Bool) (profile : ℕ → Option ℚ) (m t : ℕ)
    (hm : m + 1 < 12) (h1 : anchorDoy l m - 1 < t)
    (h2 : t < anchorDoy l (m + 1) - 1) :
    seededVal l profile t = none := by
  obtain ⟨hlo, hhi⟩ := anchorDoy_bounds l m (by omega)
  obtain ⟨hlo2, hhi2⟩ := anchorDoy_bounds l (m + 1) hm
  have hy := yearLen_ge l
  rw [seededVal, if_neg (by omega),
    monthAtAnchor_between l m (t + 1) hm (by omega) (by omega)]

/-- A convex combination between two nonnegative anchor values is
nonnegative. -/
theorem lin_interp_nonneg (vi vj x1 x2 xk : ℚ) (h1 : x1 < xk) (h2 : xk < x2)
    (hvi : 0 ≤ vi) (hvj : 0 ≤ vj) :
    0 ≤ vi + (vj - vi) * (xk - x1) / (x2 - x1) := by
  have hx : 0 < x2 - x1 := by linarith
  have ht0 : 0 ≤ (xk - x1) / (x2 - x1) := div_nonneg (by linarith) (le_of_lt hx)
  have ht1 : (xk - x1) / (x2 - x1) ≤ 1 := by
    rw [div_le_one hx]
    linarith
  have heq : vi + (vj - vi) * (xk - x1) / (x2 - x1) =
      vi * (1 - (xk - x1) / (x2 - x1)) + vj * ((xk - x1) / (x2 - x1)) := by
    ring
  rw [heq]
  have hA := mul_nonneg hvi (by linarith : (0 : ℚ) ≤ 1 - (xk - x1) / (x2 - x1))
  have hB := mul_nonneg hvj ht0
  linarith

set_option maxHeartbeats 2000000 in
/-- C10, amended: `monthly_to_daily_for_year` places the median of month `m`
at 17 days before the first day of month `m + 1` (the 15th only for 31-day
months), seeds both the January-1 and December-31 endpoints with the average
of the same year's December and January anchor values `(jan - dec)/2 + dec`,
linearly interpolates between consecutive anchors, and clamps every negative
value to zero (all outputs are nonnegative). -/
theorem spec_c10_amended (leap : Bool) (profile : ℕ → Option ℚ)
    (hfull : ∀ m, m < 12 → ∃ v, profile m = some v ∧ 0 ≤ v) :
    (∀ m v, m < 12 → profile m = some v →
      valAt (monthly_to_daily_for_year leap profile) (anchorDoy leap m - 1) =
        some v) ∧
    (∀ j d0, profile 0 = some j → profile 11 = some d0 →
      valAt (monthly_to_daily_for_year leap profile) 0 =
        some ((j - d0) / 2 + d0) ∧
      valAt (monthly_to_daily_for_year leap profile) (yearLen leap - 1) =
        some ((j - d0) / 2 + d0)) ∧
    (∀ k w, valAt (monthly_to_daily_for_year leap profile) k = some w →
      0 ≤ w) ∧
    (∀ m vm vm1, m + 1 < 12 → profile m = some vm → profile (m + 1) = some vm1 →
      ∀ k, anchorDoy leap m - 1 < k → k < anchorDoy leap (m + 1) - 1 →
        valAt (monthly_to_daily_for_year leap profile) k =
          some (vm + (vm1 - vm) *
            ((k : ℚ) - ((anchorDoy leap m - 1 : ℕ) : ℚ)) /
            (((anchorDoy leap (m + 1) - 1 : ℕ) : ℚ) -
              ((anchorDoy leap m - 1 : ℕ) : ℚ)))) := by
  have hy := yearLen_ge leap
  set S : Series := (List.range (yearLen leap)).map (seededVal leap profile)
    with hSdef
  have hlen : S.length = yearLen leap := by
    rw [hSdef, List.length_map, List.length_range]
  have hval : ∀ k, k < yearLen leap → valAt S k = seededVal leap profile k := by
    intro k hk
    rw [hSdef, valAt_map_range, if_pos hk]
  have hout : monthly_to_daily_for_year leap profile =
      clampNeg (interpTime S) := by
    rw [monthly_to_daily_for_year, hSdef]
  refine ⟨?_, ?_, ?_, ?_⟩
  · intro m v hm hv
    obtain ⟨hlo, hhi⟩ := anchorDoy_bounds leap m hm
    have hk : anchorDoy leap m - 1 < yearLen leap := by omega
    have h1 : valAt S (anchorDoy leap m - 1) = some v := by
      rw [hval _ hk, seededVal_anchor leap profile m hm, hv]
    have h2 : valAt (interpTime S) (anchorDoy leap m - 1) = some v := by
      rw [interpTime, valAt_interp S S.length _ (by omega)]
      exact interpAt_of_some S S.length _ v h1
    obtain ⟨v0, hv0, hnn⟩ := hfull m hm
    rw [hv] at hv0
    injection hv0 with hv0e
    rw [hout, valAt_clampNeg, h2]
    simp only [Option.map_some']
    rw [if_neg (not_lt.mpr (hv0e ▸ hnn))]
  · intro j d0 hj hd0
    have hev : endVal profile = some ((j - d0) / 2 + d0) := by
      rw [endVal, hj, hd0]
    obtain ⟨j0, hj0, hjn⟩ := hfull 0 (by omega)
    obtain ⟨d1, hd1, hdn⟩ := hfull 11 (by omega)
    rw [hj] at hj0
    injection hj0 with hj0e
    rw [hd0] at hd1
    injection hd1 with hd1e
    have hnn : 0 ≤ (j - d0) / 2 + d0 := by
      have heq : (j - d0) / 2 + d0 = (j + d0) / 2 := by ring
      rw [heq]
      have : (0 : ℚ) ≤ j + d0 := by
        rw [hj0e, hd1e]
        linarith
      linarith
    constructor
    · have h1 : valAt S 0 = some ((j - d0) / 2 + d0) := by
        rw [hval 0 (by omega), seededVal_start, hev]
      have h2 : valAt (interpTime S) 0 = some ((j - d0) / 2 + d0) := by
        rw [interpTime, valAt_interp S S.length _ (by omega)]
        exact interpAt_of_some S S.length _ _ h1
      rw [hout, valAt_clampNeg, h2]
      simp only [Option.map_some']
      rw [if_neg (not_lt.mpr hnn)]
    · have h1 : valAt S (yearLen leap - 1) = some ((j - d0) / 2 + d0) := by
        rw [hval _ (by omega), seededVal_end, hev]
      have h2 : valAt (interpTime S) (yearLen leap - 1) =
          some ((j - d0) / 2 + d0) := by
        rw [interpTime, valAt_interp S S.length _ (by omega)]
        exact interpAt_of_some S S.length _ _ h1
      rw [hout, valAt_clampNeg, h2]
      simp only [Option.map_some']
      rw [if_neg (not_lt.mpr hnn)]
  · intro k w h
    rw [hout, valAt_clampNeg] at h
    cases hx : valAt (interpTime S) k with
    | none => rw [hx] at h; cases h
    | some v =>
      rw [hx] at h
      simp only [Option.map_some'] at h
      injection h with he
      by_cases hv : v < 0
      · rw [if_pos hv] at he
        exact he ▸ le_refl (0 : ℚ)
      · rw [if_neg hv] at he
        exact he ▸ le_of_not_lt hv
  · intro m vm vm1 hm hvm hvm1 k hk1 hk2
    obtain ⟨hlo, hhi⟩ := anchorDoy_bounds leap m (by omega)
    obtain ⟨hlo2, hhi2⟩ := anchorDoy_bounds leap (m + 1) hm
    have hmono := anchorDoy_mono leap m (by omega) (m + 1) hm (by omega)
    have hkY : k < yearLen leap := by omega
    have hi : valAt S (anchorDoy leap m - 1) = some vm := by
      rw [hval _ (by omega), seededVal_anchor leap profile m (by omega), hvm]
    have hj : valAt S (anchorDoy leap (m + 1) - 1) = some vm1 := by
      rw [hval _ (by omega), seededVal_anchor leap profile (m + 1) hm, hvm1]
    have hbet : ∀ t, anchorDoy leap m - 1 < t →
        t < anchorDoy leap (m + 1) - 1 → valAt S t = none := by
      intro t ht1 ht2
      rw [hval _ (by omega)]
      exact seededVal_between leap profile m t hm ht1 ht2
    have h2 := interpAt_between S S.length (anchorDoy leap m - 1)
      (anchorDoy leap (m + 1) - 1) k vm vm1 hk1 hk2 hi hj hbet (by omega)
    have hnn : 0 ≤ vm + (vm1 - vm) *
        ((k : ℚ) - ((anchorDoy leap m - 1 : ℕ) : ℚ)) /
        (((anchorDoy leap (m + 1) - 1 : ℕ) : ℚ) -
          ((anchorDoy leap m - 1 : ℕ) : ℚ)) := by
      obtain ⟨v0, hv0, hnn0⟩ := hfull m (by omega)
      obtain ⟨v1, hv1, hnn1⟩ := hfull (m + 1) (by omega)
      rw [hvm] at hv0
      injection hv0 with he0
      rw [hvm1] at hv1
      injection hv1 with he1
      apply lin_interp_nonneg
      · exact_mod_cast hk1
      · exact_mod_cast hk2
      · exact he0 ▸ hnn0
      · exact he1 ▸ hnn1
    rw [hout, valAt_clampNeg, interpTime, valAt_interp S S.length k (by omega),
      h2]
    simp only [Option.map_some']
    rw [if_neg (not_lt.mpr hnn)]

set_option maxHeartbeats 1000000 in
/-- C10, counterexample: with January and February medians 0 and a March
median 31 (non-leap year), the source places February's median on February
12 (day-of-year 43), not the 15th: on February 15 (day 46, index 45) the
source-embedded series interpolates `3` between the February-12 and March-15
anchors, while the claim's own construction (anchor at the 15th) yields `0`
there. -/
theorem spec_c10_counterexample :
    valAt (monthly_to_daily_for_year false exProfile10) 45 = some 3 ∧
    valAt (monthlyToDailySpecClaim false exProfile10) 45 = some 0 ∧
    (3 : ℚ) ≠ 0 := by
  have hyl : yearLen false = 365 := by decide
  refine ⟨?_, ?_, by norm_num⟩
  · set S : Series :=
      (List.range (yearLen false)).map (seededVal false exProfile10) with hSdef
    have hlenS : S.length = 365 := by
      rw [hSdef, List.length_map, List.length_range, hyl]
    have hval : ∀ k, k < 365 → valAt S k = seededVal false exProfile10 k := by
      intro k hk
      rw [hSdef, valAt_map_range, if_pos (by omega)]
    have h42 : seededVal false exProfile10 42 = some 0 := by
      rw [seededVal, hyl, if_neg (by omega),
        show monthAtAnchor false (42 + 1) = some 1 from by decide]
      norm_num [exProfile10]
    have h73 : seededVal false exProfile10 73 = some 31 := by
      rw [seededVal, hyl, if_neg (by omega),
        show monthAtAnchor false (73 + 1) = some 2 from by decide]
      norm_num [exProfile10]
    have hbet : ∀ t, 42 < t → t < 73 → seededVal false exProfile10 t = none := by
      intro t h1 h2
      rw [seededVal, hyl, if_neg (by omega)]
      have hdec : ∀ t2, t2 < 73 → 42 < t2 →
          monthAtAnchor false (t2 + 1) = none := by decide
      rw [hdec t h2 h1]
    have hvS42 : valAt S 42 = some 0 := by rw [hval 42 (by omega), h42]
    have hvS73 : valAt S 73 = some 31 := by rw [hval 73 (by omega), h73]
    have hbetS : ∀ t, 42 < t → t < 73 → valAt S t = none := by
      intro t h1 h2
      rw [hval t (by omega), hbet t h1 h2]
    have hint := interpAt_between S S.length 42 73 45 0 31 (by omega)
      (by omega) hvS42 hvS73 hbetS (by omega)
    have hout : monthly_to_daily_for_year false exProfile10 =
        clampNeg (interpTime S) := by
      rw [monthly_to_daily_for_year, hSdef]
    rw [hout, valAt_clampNeg, interpTime, valAt_interp S S.length 45 (by omega),
      hint]
    norm_num
  · set S2 : Series :=
      (List.range (yearLen false)).map (seededValSpecClaim false exProfile10)
      with hS2def
    have hlenS2 : S2.length = 365 := by
      rw [hS2def, List.length_map, List.length_range, hyl]
    have h45 : seededValSpecClaim false exProfile10 45 = some 0 := by
      rw [seededValSpecClaim, hyl, if_neg (by omega),
        show monthAtAnchorSpecClaim false (45 + 1) = some 1 from by decide]
      norm_num [exProfile10]
    have hvS45 : valAt S2 45 = some 0 := by
      rw [hS2def, valAt_map_range, if_pos (by omega), h45]
    have hout : monthlyToDailySpecClaim false exProfile10 =
        clampNeg (interpTime S2) := by
      rw [monthlyToDailySpecClaim, hS2def]
    rw [hout, valAt_clampNeg, interpTime, valAt_interp S2 S2.length 45 (by omega),
      interpAt_of_some S2 S2.length 45 0 hvS45]
    norm_num

set_option maxHeartbeats 1000000 in
/-- C10, witness: the amended statement applied to the concrete profile —
February's median 0 sits at its anchor (index 42 = February 12), and
January 1 carries the same-year seed `(0 - 31)/2 + 31 = 31/2`. -/
theorem spec_c10_witness :
    valAt (monthly_to_daily_for_year false exProfile10)
      (anchorDoy false 1 - 1) = some 0 ∧
    valAt (monthly_to_daily_for_year false exProfile10) 0 = some (31 / 2) := by
  have hfull : ∀ m, m < 12 → ∃ v, exProfile10 m = some v ∧ 0 ≤ v := by
    intro m hm
    by_cases h0 : m = 0 ∨ m = 1
    · refine ⟨0, ?_, le_refl 0⟩
      simp [exProfile10, h0]
    · refine ⟨31, ?_, by norm_num⟩
      simp [exProfile10, h0, hm]
  obtain ⟨hc1, hc2, _, _⟩ := spec_c10_amended false exProfile10 hfull
  constructor
  · exact hc1 1 0 (by omega) (by norm_num [exProfile10])
  · have h := (hc2 0 31 (by norm_num [exProfile10]) (by norm_num [exProfile10])).1
    rw [h]
    norm_num
